import Mathlib

/-!
# memdbfs: a path-keyed in-memory file system

A shallow embedding of `fs.go` and `node.go`.

* Go strings are Lean strings (valid UTF-8 text); a string is processed as its list of
  characters, and hashed as its UTF-8 bytes.
* A `*Node` is an index into `World.heap`; the only table of the database, "Node", with
  its unique index "id" on the field `Path`, is `World.db`, a list of `(Path, pointer)`
  with at most one entry for a path.
* `fmt.Sprintf` and `strings.Replace` (Go standard library) and the three go-memdb
  transaction calls the code uses are modelled next to the code that calls them.
-/

namespace MemDBFS

/-! ## Go standard library: `fmt.Sprintf` without operands -/

/-- The flag characters `doPrintf` skips after a percent sign. -/
def isFlag (c : Char) : Bool :=
  c == '#' || c == '0' || c == '+' || c == '-' || c == ' '

/-- Go `fmt.parsenum` on the slice `s[start:end]`: the number read, whether a digit was
read, and the characters left; `none` stands for the jump to `end` on a number above
`1e6`. -/
def parsenum : Nat → Bool → List Char → Nat × Bool × Option (List Char)
  | num, isnum, [] => (num, isnum, some [])
  | num, isnum, c :: cs =>
    if c.isDigit then
      if num > 1000000 then (0, false, none)
      else parsenum (num * 10 + (c.toNat - 48)) true cs
    else (num, isnum, some (c :: cs))

/-- Go `fmt.parseArgNumber` on a format that starts with `[`: the width consumed and
whether the bracket holds a number. -/
def parseArgNumber (format : List Char) : Nat × Bool :=
  if format.length < 3 then (1, false)
  else
    let j := format.tail.indexOf ']'
    if j < format.tail.length then
      match parsenum 0 false (format.tail.take j) with
      | (_, true, some []) => (j + 2, true)
      | _ => (j + 2, false)
    else (1, false)

/-- Go `(*pp).argNumber` when there are no operands: the characters left, whether an index
was found, and the flag `goodArgNum` (an index can never be in range). -/
def argNumber (cs : List Char) (good : Bool) : List Char × Bool × Bool :=
  match cs with
  | '[' :: _ =>
    let r := parseArgNumber cs
    (cs.drop r.1, r.2, false)
  | _ => (cs, false, good)

/-- Width of one verb: `*` has no operand to read and writes `%!(BADWIDTH)`. Returns the
text written, the characters left, `afterIndex` and `goodArgNum`. -/
def verbWidth (cs : List Char) (afterIndex good : Bool) :
    List Char × List Char × Bool × Bool :=
  match cs with
  | '*' :: rest => ("%!(BADWIDTH)".data, rest, false, good)
  | _ =>
    match parsenum 0 false cs with
    | (_, present, rest) =>
      ([], rest.getD [], afterIndex, if afterIndex && present then false else good)

/-- Precision of one verb after its `.` and a possible index: `*` has no operand to read and
writes `%!(BADPREC)`, otherwise a number is read. -/
def precAfterIndex (cs : List Char) (found good : Bool) :
    List Char × List Char × Bool × Bool :=
  match cs with
  | '*' :: rest => ("%!(BADPREC)".data, rest, false, good)
  | _ => ([], (parsenum 0 false cs).2.2.getD [], found, good)

/-- Precision of one verb: `.` followed by an index, `*` or a number. Returns the text
written, the characters left, `afterIndex` and `goodArgNum`. -/
def verbPrec (cs : List Char) (afterIndex good : Bool) :
    List Char × List Char × Bool × Bool :=
  match cs with
  | '.' :: rest =>
    let r := argNumber rest (if afterIndex then false else good)
    precAfterIndex r.1 r.2.1 r.2.2
  | _ => ([], cs, afterIndex, good)

/-- The end of one verb: no verb character left writes `%!(NOVERB)`; `%` writes a percent
sign; any other verb has no operand and writes `%!v(BADINDEX)` or `%!v(MISSING)`. The text
`out` was written by the width and the precision. -/
def verbEnd (out cs : List Char) (good : Bool) : List Char × List Char :=
  match cs with
  | [] => (out ++ "%!(NOVERB)".data, [])
  | verb :: rest =>
    if verb = '%' then (out ++ ['%'], rest)
    else if !good then (out ++ "%!".data ++ [verb] ++ "(BADINDEX)".data, rest)
    else (out ++ "%!".data ++ [verb] ++ "(MISSING)".data, rest)

/-- One verb of `doPrintf` with no operands, started after its percent sign: flags, index,
width, precision, index, verb. Returns the text written and the characters left. -/
def doVerb (cs : List Char) : List Char × List Char :=
  let r1 := argNumber (cs.dropWhile isFlag) true
  let r2 := verbWidth r1.1 r1.2.1 r1.2.2
  let r3 := verbPrec r2.2.1 r2.2.2.1 r2.2.2.2
  let r4 := if r3.2.2.1 then (r3.2.1, r3.2.2.1, r3.2.2.2) else argNumber r3.2.1 r3.2.2.2
  verbEnd (r2.1 ++ r3.1) r4.1 r4.2.2

/-- The loop of Go `(*pp).doPrintf` with no operands: plain text is copied, a percent sign
starts a verb. The fuel is the number of characters still to read. -/
def doPrintf : Nat → List Char → List Char
  | 0, _ => []
  | _ + 1, [] => []
  | fuel + 1, c :: cs =>
    if c = '%' then (doVerb cs).1 ++ doPrintf fuel (doVerb cs).2
    else c :: doPrintf fuel cs

/-- Go `fmt.Sprintf(format)` called with a format and no operands. -/
def Sprintf (format : String) : String :=
  ⟨doPrintf format.data.length format.data⟩

/-! ## Go standard library: `strings.Replace(s, old, new, 1)` -/

/-- The first occurrence of `old` in the characters is replaced by `new`. -/
def replaceFirst (old new : List Char) : List Char → List Char
  | [] => if old = [] then new else []
  | c :: cs =>
    if old.isPrefixOf (c :: cs) then new ++ (c :: cs).drop old.length
    else c :: replaceFirst old new cs

/-- Go `strings.Replace(s, old, new, 1)`. -/
def Replace1 (s old new : String) : String :=
  ⟨replaceFirst old.data new.data s.data⟩

/-! ## Go standard library: `hash/fnv`, `os.FileMode` -/

/-- The UTF-8 bytes of one character. -/
def utf8Bytes (c : Char) : List Nat :=
  let v := c.toNat
  if v < 0x80 then [v]
  else if v < 0x800 then [0xC0 + v / 64, 0x80 + v % 64]
  else if v < 0x10000 then [0xE0 + v / 4096, 0x80 + v / 64 % 64, 0x80 + v % 64]
  else [0xF0 + v / 262144, 0x80 + v / 4096 % 64, 0x80 + v / 64 % 64, 0x80 + v % 64]

/-- The bytes `[]byte(path)` of a string. -/
def bytesOf (s : String) : List Nat := s.data.flatMap utf8Bytes

/-- One round of `fnv.New64` (FNV-1): multiply by the prime in 64 bits, then xor the byte. -/
def fnvStep (h b : Nat) : Nat := ((h * 1099511628211) % 2 ^ 64) ^^^ b

/-- Go `os.ModeDir`. -/
def ModeDir : Nat := 2 ^ 31
/-- Go `os.ModeSymlink`. -/
def ModeSymlink : Nat := 2 ^ 27
/-- Go `os.ModeType`: directory, symlink, named pipe, socket, device, char device,
irregular. -/
def ModeType : Nat := 2 ^ 31 ||| 2 ^ 27 ||| 2 ^ 25 ||| 2 ^ 24 ||| 2 ^ 26 ||| 2 ^ 21 ||| 2 ^ 19

/-- Go `FileMode.IsDir`. -/
def FileMode.IsDir (m : Nat) : Bool := m &&& ModeDir != 0
/-- Go `FileMode.IsRegular`. -/
def FileMode.IsRegular (m : Nat) : Bool := m &&& ModeType == 0

/-- The constant `defaultDirPerms = 0775`. -/
def defaultDirPerms : Nat := 0o775
/-- The constant `defaultFilePerms = 0644`. -/
def defaultFilePerms : Nat := 0o644

/-! ## The data model (`node.go`) and the store -/

/-- The errors the handlers return, and the run-time panic of a type assertion on a nil
interface (`raw.(*Node)` with `raw == nil`). -/
inductive Error where
  | ENOENT
  | ENOTDIR
  | EISDIR
  | EINVAL
  | ErrNoRows
  | missingPrimaryIndex
  | notImplemented
  | nilPanic
  deriving DecidableEq, Repr

deriving instance DecidableEq for Except

/-- The struct `Node` of `node.go`. The field `mdbfs` is the one database every node shares
and `mu` guards `Size` and `Data` between goroutines; neither holds data. -/
structure Node where
  Path : String
  Name : String
  ID : Nat
  Mode : Nat
  SymlinkTarget : String
  Size : Nat
  Data : List UInt8
  deriving DecidableEq, Repr

/-- The struct `fuse.Dirent`; `Typ` is its field `Type`. -/
structure Dirent where
  Inode : Nat
  Typ : Nat
  Name : String
  deriving DecidableEq, Repr

/-- The fields of `fuse.Attr` that `Attr` assigns. -/
structure Attr where
  Inode : Nat
  Size : Nat
  Mode : Nat
  deriving DecidableEq, Repr

/-- The fields of `fuse.MkdirRequest` the code reads. -/
structure MkdirRequest where
  Name : String
  Mode : Nat

/-- The fields of `fuse.CreateRequest` the code reads. -/
structure CreateRequest where
  Name : String
  Mode : Nat

/-- The fields of `fuse.RemoveRequest` the code reads. -/
structure RemoveRequest where
  Name : String
  Dir : Bool

/-- The fields of `fuse.WriteRequest` the code reads. -/
structure WriteRequest where
  Data : List UInt8
  Offset : Int

/-- The struct `fuse.WriteResponse`. -/
structure WriteResponse where
  Size : Nat
  deriving DecidableEq, Repr

/-- The fields of `fuse.ReadRequest` the code reads. -/
structure ReadRequest where
  Offset : Int
  Size : Int

/-- The struct `fuse.ReadResponse`. -/
structure ReadResponse where
  Data : List UInt8
  deriving DecidableEq, Repr

/-- The constant `fuse.DT_Unknown`. -/
def DT_Unknown : Nat := 0

/-- The memory of the process and the database: `heap` holds every `Node` allocated so far
(a `*Node` is its index) and `db` is the table "Node", one `(Path, pointer)` per record. -/
structure World where
  heap : List Node
  db : List (String × Nat)
  deriving DecidableEq, Repr

/-- The state at start-up: `memdb.NewMemDB(schema)` is an empty table. -/
def World.empty : World := ⟨[], []⟩

/-- Allocation `&Node{...}`: the new pointer and the memory that holds the node. -/
def World.alloc (w : World) (n : Node) : Nat × World :=
  (w.heap.length, { w with heap := w.heap ++ [n] })

/-! ## go-memdb: the transaction calls on the table "Node" -/

/-- `txn.Insert("Node", obj)` then `Commit`: the string index refuses an empty `Path`;
a record with the same `Path` is replaced. -/
def Txn.Insert (w : World) (obj : Nat) : Except Error World :=
  match w.heap[obj]? with
  | none => .error .nilPanic
  | some n =>
    if n.Path = "" then .error .missingPrimaryIndex
    else .ok { w with db := (n.Path, obj) :: w.db.filter (fun e => e.1 != n.Path) }

/-- `txn.First("Node", "id", key)`: the record whose `Path` is `key`, or nil. -/
def Txn.First (w : World) (key : String) : Option Nat :=
  (w.db.find? (fun e => e.1 == key)).map (fun e => e.2)

/-- `txn.DeleteAll("Node", "id", key)` then `Commit`: the number of records deleted and
the table without the records whose `Path` is `key`. -/
def Txn.DeleteAll (w : World) (key : String) : Nat × World :=
  ((w.db.filter (fun e => e.1 == key)).length,
   { w with db := w.db.filter (fun e => e.1 != key) })

/-- The order of the index: byte-wise on the `Path`. -/
def keyLE (a b : String × Nat) : Prop := bytesOf a.1 ≤ bytesOf b.1

instance : DecidableRel keyLE := fun a b => inferInstanceAs (Decidable (bytesOf a.1 ≤ bytesOf b.1))

/-- `txn.Get("Node", "id_prefix", p)` iterated with `Next` until nil: the records whose
`Path` starts with `p`, in the order of the index. (go-memdb ends a key with a NUL byte;
the names the file system receives contain none, so a key matches as its `Path` does.) -/
def Txn.GetPrefix (w : World) (p : String) : List Nat :=
  ((w.db.filter (fun e => p.data.isPrefixOf e.1.data)).insertionSort keyLE).map (fun e => e.2)

/-! ## `fs.go` -/

/-- The method `newUniqueID`: `fnv.New64()`, `Write([]byte(path))`, `Sum64()`. -/
def MDBFS.newUniqueID (path : String) : Nat :=
  (bytesOf path).foldl fnvStep 14695981039346656037

/-- The method `Root`: a new directory node with the empty path; the error is always nil. -/
def MDBFS.Root (w : World) : Except Error (Nat × World) :=
  .ok (w.alloc { Path := "", Name := "", ID := MDBFS.newUniqueID "",
                 Mode := ModeDir ||| defaultDirPerms, SymlinkTarget := "", Size := 0, Data := [] })

/-- The method `remove`: `DeleteAll` on the key `Sprintf(parentPath+"/"+name)`, which never
fails on this table; the branch on `checkChildren` is empty in the source. -/
def MDBFS.remove (w : World) (parentPath name : String) (checkChildren : Bool) :
    Except Error World :=
  let r := Txn.DeleteAll w (Sprintf (parentPath ++ "/" ++ name))
  if checkChildren then .ok r.2 else .ok r.2

/-- The method `lookup`: the record at `Sprintf(n.Path+"/"+name)`, refused with
`sql.ErrNoRows` when there is none or when its `ID` is the `ID` of `n`. -/
def MDBFS.lookup (w : World) (n : Nat) (name : String) : Except Error Nat :=
  match w.heap[n]? with
  | none => .error .nilPanic
  | some nd =>
    match Txn.First w (Sprintf (nd.Path ++ "/" ++ name)) with
    | none => .error .ErrNoRows
    | some raw =>
      match w.heap[raw]? with
      | none => .error .nilPanic
      | some r => if r.ID = nd.ID then .error .ErrNoRows else .ok raw

/-- The loop of the method `list` over the records of the prefix scan: a record is kept
when its `Path` without the first `Sprintf(n.Path+"/")` is its `Name`. -/
def MDBFS.listLoop (w : World) (nd : Node) : List Nat → List Dirent → Except Error (List Dirent)
  | [], results => .ok results
  | e :: nodes, results =>
    match w.heap[e]? with
    | none => .error .nilPanic
    | some en =>
      if Replace1 en.Path (Sprintf (nd.Path ++ "/")) "" != en.Name then
        MDBFS.listLoop w nd nodes results
      else
        MDBFS.listLoop w nd nodes (results ++ [{ Typ := DT_Unknown, Name := en.Name, Inode := en.ID }])

/-- The method `list`. -/
def MDBFS.list (w : World) (n : Nat) : Except Error (List Dirent) :=
  match w.heap[n]? with
  | none => .error .nilPanic
  | some nd => MDBFS.listLoop w nd (Txn.GetPrefix w nd.Path) []

/-- The method `newDirNode` (the node it builds; `Mkdir` allocates it). -/
def MDBFS.newDirNode (path name : String) : Node :=
  let fullPath := Sprintf (path ++ "/" ++ name)
  { ID := MDBFS.newUniqueID fullPath, Path := fullPath, Mode := ModeDir ||| defaultDirPerms,
    Name := name, SymlinkTarget := "", Size := 0, Data := [] }

/-- The method `create`. -/
def MDBFS.create (w : World) (inode : Nat) : Except Error (Nat × World) :=
  match Txn.Insert w inode with
  | .error err => .error err
  | .ok w1 => .ok (inode, w1)

/-- The method `newFileNode` (the node it builds; `Create` allocates it). -/
def MDBFS.newFileNode (path name : String) : Node :=
  let fullPath := Sprintf (path ++ "/" ++ name)
  { ID := MDBFS.newUniqueID fullPath, Path := fullPath, Mode := defaultFilePerms,
    Name := name, SymlinkTarget := "", Size := 0, Data := [] }

/-! ## `node.go` -/

/-- The method `isDir`. -/
def Node.isDir (n : Node) : Bool := FileMode.IsDir n.Mode

/-- The method `isRegular`. -/
def Node.isRegular (n : Node) : Bool := FileMode.IsRegular n.Mode

/-- The method `isSymlink`. -/
def Node.isSymlink (n : Node) : Bool := n.Mode &&& ModeSymlink != 0

/-- The method `Attr` on the node at `n`, filling `a`. -/
def Node.Attr (w : World) (n : Nat) (a : Attr) : Except Error Attr :=
  match w.heap[n]? with
  | none => .error .nilPanic
  | some nd =>
    let a1 := { a with Inode := nd.ID, Mode := nd.Mode }
    if nd.isRegular then .ok { a1 with Size := nd.Size }
    else if nd.isSymlink then .ok { a1 with Size := nd.SymlinkTarget.utf8ByteSize % 2 ^ 64 }
    else .ok a1

/-- The method `Lookup`. -/
def Node.Lookup (w : World) (n : Nat) (name : String) : Except Error Nat :=
  match w.heap[n]? with
  | none => .error .nilPanic
  | some nd =>
    if !nd.isDir then .error .ENOTDIR
    else
      match MDBFS.lookup w n name with
      | .error err => if err = .ErrNoRows then .error .ENOENT else .error err
      | .ok node => .ok node

/-- The method `ReadDirAll`. -/
def Node.ReadDirAll (w : World) (n : Nat) : Except Error (List Dirent) :=
  match w.heap[n]? with
  | none => .error .nilPanic
  | some nd => if !nd.isDir then .error .ENOTDIR else MDBFS.list w n

/-- The method `Mkdir`: the result and the state afterwards. -/
def Node.Mkdir (w : World) (n : Nat) (req : MkdirRequest) : Except Error Nat × World :=
  match w.heap[n]? with
  | none => (.error .nilPanic, w)
  | some nd =>
    if !nd.isDir then (.error .ENOTDIR, w)
    else if !FileMode.IsDir req.Mode then (.error .ENOTDIR, w)
    else
      let a := w.alloc (MDBFS.newDirNode nd.Path req.Name)
      match MDBFS.create a.2 a.1 with
      | .error err => (.error err, a.2)
      | .ok r => (.ok r.1, r.2)

/-- The method `Create`: the node and the handle, and the state afterwards. -/
def Node.Create (w : World) (n : Nat) (req : CreateRequest) : Except Error (Nat × Nat) × World :=
  match w.heap[n]? with
  | none => (.error .nilPanic, w)
  | some nd =>
    if !nd.isDir then (.error .ENOTDIR, w)
    else if FileMode.IsDir req.Mode then (.error .EISDIR, w)
    else if !FileMode.IsRegular req.Mode then (.error .EINVAL, w)
    else
      let a := w.alloc (MDBFS.newFileNode nd.Path req.Name)
      match MDBFS.create a.2 a.1 with
      | .error err => (.error err, a.2)
      | .ok r => (.ok (r.1, r.1), r.2)

/-- The method `Remove`: the result and the state afterwards. -/
def Node.Remove (w : World) (n : Nat) (req : RemoveRequest) : Except Error Unit × World :=
  match w.heap[n]? with
  | none => (.error .nilPanic, w)
  | some nd =>
    if !FileMode.IsDir nd.Mode then (.error .ENOTDIR, w)
    else
      match (if req.Dir then MDBFS.remove w nd.Path req.Name true
             else MDBFS.remove w nd.Path req.Name false) with
      | .error err => (.error err, w)
      | .ok w1 => (.ok (), w1)

/-- The method `Write`: the response after the call and the state afterwards. The node is
assigned its new `Data` and `Size` before the insert. -/
def Node.Write (w : World) (n : Nat) (req : WriteRequest) (resp : WriteResponse) :
    Except Error WriteResponse × World :=
  match w.heap[n]? with
  | none => (.error .nilPanic, w)
  | some nd =>
    if !FileMode.IsRegular nd.Mode then (.error .EINVAL, w)
    else if req.Offset < 0 then (.error .EINVAL, w)
    else if req.Data.length = 0 then (.ok resp, w)
    else
      let w1 : World :=
        { w with heap := w.heap.set n { nd with Data := req.Data, Size := req.Data.length % 2 ^ 64 } }
      match Txn.Insert w1 n with
      | .error err => (.error err, w1)
      | .ok w2 => (.ok { resp with Size := req.Data.length }, w2)

/-- The method `ReadAll`. -/
def Node.ReadAll (w : World) (n : Nat) : Except Error (List UInt8) :=
  match w.heap[n]? with
  | none => .error .nilPanic
  | some nd =>
    match Txn.First w nd.Path with
    | none => .error .nilPanic
    | some raw =>
      match w.heap[raw]? with
      | none => .error .nilPanic
      | some r => .ok r.Data

/-- The method `Read`: the response after the call. -/
def Node.Read (w : World) (n : Nat) (req : ReadRequest) (resp : ReadResponse) :
    Except Error ReadResponse :=
  match w.heap[n]? with
  | none => .error .nilPanic
  | some nd =>
    if !FileMode.IsRegular nd.Mode then .error .EINVAL
    else if req.Offset < 0 then .error .EINVAL
    else if req.Size = 0 then .ok resp
    else
      match Txn.First w nd.Path with
      | none => .error .nilPanic
      | some raw =>
        match w.heap[raw]? with
        | none => .error .nilPanic
        | some r => .ok { resp with Data := r.Data }

/-- The method `Fsync`. -/
def Node.Fsync (_w : World) (_n : Nat) : Except Error Unit := .ok ()

/-- The method `Rename`. -/
def Node.Rename (_w : World) (_n : Nat) : Except Error Unit := .error .notImplemented

/-- The method `Readlink`. -/
def Node.Readlink (w : World) (n : Nat) : Except Error String :=
  match w.heap[n]? with
  | none => .error .nilPanic
  | some nd => if !nd.isSymlink then .error .EINVAL else .ok nd.SymlinkTarget

/-! ## The store invariant and the states used as examples -/

/-- The store invariant: every record has a non-empty key, its pointer is allocated and the
node it points to has the key as its `Path`; no two records share a key. -/
def World.WF (w : World) : Prop :=
  (∀ e ∈ w.db, e.1 ≠ "" ∧ (w.heap[e.2]?).map Node.Path = some e.1) ∧
  (w.db.map Prod.fst).Nodup

instance (w : World) : Decidable w.WF := by
  unfold World.WF
  infer_instance

/-- The mode of a directory request, `os.ModeDir | 0775`. -/
def dirMode : Nat := ModeDir ||| defaultDirPerms

/-- The bytes of "hello". -/
def hello : List UInt8 := [104, 101, 108, 108, 111]

/-- The state after `Root()` on the empty store; the root node is pointer 0. -/
def wRoot : World :=
  match MDBFS.Root World.empty with
  | .ok r => r.2
  | .error _ => World.empty

/-- The node `Root()` builds. -/
def rootNode : Node :=
  { Path := "", Name := "", ID := MDBFS.newUniqueID "", Mode := ModeDir ||| defaultDirPerms,
    SymlinkTarget := "", Size := 0, Data := [] }

/-- The state after `Mkdir(root, "top")`; the directory is pointer 1. -/
def wTop : World := (Node.Mkdir wRoot 0 ⟨"top", dirMode⟩).2

/-- The state after `Create(top, "a.txt")`; the file is pointer 2. -/
def wFile : World := (Node.Create wTop 1 ⟨"a.txt", defaultFilePerms⟩).2

/-- The state after writing "hello" to `/top/a.txt`. -/
def wHello : World := (Node.Write wFile 2 ⟨hello, 0⟩ ⟨0⟩).2

/-- The state after `Mkdir(root, "%%")` (pointer 1, `Path` `/%`), `Mkdir(root, "%%+")`
(pointer 2, `Path` `/%+`) and `Create` of "x" in the second directory (pointer 3). -/
def wPctSibling : World :=
  (Node.Create (Node.Mkdir (Node.Mkdir wRoot 0 ⟨"%%", dirMode⟩).2 0 ⟨"%%+", dirMode⟩).2 2
    ⟨"x", defaultFilePerms⟩).2

/-- The state after `Mkdir(root, "%%%%")` (pointer 1, `Path` `/%%`), `Mkdir` of "x" in it
(pointer 2, `Path` `/%/x`) and `Mkdir(root, "%%")` (pointer 3, `Path` `/%`). -/
def wPctOther : World :=
  (Node.Mkdir (Node.Mkdir (Node.Mkdir wRoot 0 ⟨"%%%%", dirMode⟩).2 1 ⟨"x", dirMode⟩).2 0
    ⟨"%%", dirMode⟩).2

/-- The state after `Mkdir(root, "%d")`; the directory is pointer 1. -/
def wVerbDir : World := (Node.Mkdir wRoot 0 ⟨"%d", dirMode⟩).2

/-- The state after `Create(root, "%d")` (pointer 1) and a `Write` of "hello" to it. -/
def wVerbFile : World :=
  (Node.Write (Node.Create wRoot 0 ⟨"%d", defaultFilePerms⟩).2 1 ⟨hello, 0⟩ ⟨0⟩).2

/-! ## Runs of the handlers from the empty store -/

/-- One call of a handler that can change the state. -/
inductive Op where
  | root
  | mkdir (n : Nat) (req : MkdirRequest)
  | create (n : Nat) (req : CreateRequest)
  | write (n : Nat) (req : WriteRequest)
  | remove (n : Nat) (req : RemoveRequest)

/-- The state after one call. -/
def step (w : World) : Op → World
  | .root =>
    match MDBFS.Root w with
    | .ok r => r.2
    | .error _ => w
  | .mkdir n req => (Node.Mkdir w n req).2
  | .create n req => (Node.Create w n req).2
  | .write n req => (Node.Write w n req ⟨0⟩).2
  | .remove n req => (Node.Remove w n req).2

/-- The state after a sequence of calls on the empty store. -/
def run (ops : List Op) : World := ops.foldl step World.empty

/-- The name a call creates has no percent sign. -/
def Op.plainName : Op → Prop
  | .mkdir _ req => '%' ∉ req.Name.data
  | .create _ req => '%' ∉ req.Name.data
  | _ => True

/-- Every node allocated has a `Path` without a percent sign that is empty (a root) or ends
with "/" and the node's `Name`. -/
def World.Plain (w : World) : Prop :=
  ∀ nd ∈ w.heap, '%' ∉ nd.Path.data ∧ (nd.Path = "" ∨ ∃ q : String, nd.Path = q ++ "/" ++ nd.Name)

/-- What one round of the loop of `list` adds for the record at pointer `e`. -/
def MDBFS.listEntry (w : World) (nd : Node) (e : Nat) : Option Dirent :=
  match w.heap[e]? with
  | none => none
  | some en =>
    if Replace1 en.Path (Sprintf (nd.Path ++ "/")) "" != en.Name then none
    else some { Typ := DT_Unknown, Name := en.Name, Inode := en.ID }

/-- The payload of a `Write` has a length in the range of Go's `len`. -/
def Op.sized : Op → Prop
  | .write _ req => req.Data.length < 2 ^ 64
  | _ => True

/-- The name a call creates has no "/". -/
def Op.noSlash : Op → Prop
  | .mkdir _ req => '/' ∉ req.Name.data
  | .create _ req => '/' ∉ req.Name.data
  | _ => True

/-- Every node allocated is as `Root`, `newDirNode` or `newFileNode` built it, but for its
`Data` and `Size`: its `ID` is the hash of its `Path`, it has no symlink target, and it is
a root (empty `Path`, directory mode) or was made under a directory node `d` that is
still allocated, with `Path` `Sprintf(d.Path + "/" + Name)` and the directory or the file
mode. -/
def World.Built (w : World) : Prop :=
  ∀ nd ∈ w.heap, nd.ID = MDBFS.newUniqueID nd.Path ∧ nd.SymlinkTarget = "" ∧
    ((nd.Path = "" ∧ nd.Mode = ModeDir ||| defaultDirPerms) ∨
     (∃ d ∈ w.heap, d.isDir = true ∧ nd.Path = Sprintf (d.Path ++ "/" ++ nd.Name) ∧
        (nd.Mode = ModeDir ||| defaultDirPerms ∨ nd.Mode = defaultFilePerms)))

/-- Every node allocated has the length of its `Data` as its `Size`. -/
def World.SizeOK (w : World) : Prop :=
  ∀ nd ∈ w.heap, nd.Size = nd.Data.length

/-- Every node allocated has an empty `Path` (a root), or a `Path` that starts with "/" and
a `Name` without "/". -/
def World.Slashed (w : World) : Prop :=
  ∀ nd ∈ w.heap, nd.Path = "" ∨ (nd.Path.data.head? = some '/' ∧ '/' ∉ nd.Name.data)

/-- The 64-bit FNV-1 hash in the words of the specification: start at `h`, and for each
byte set `h := (h * 1099511628211 mod 2^64) xor byte`. -/
def fnv1Spec (h : Nat) : List Nat → Nat
  | [] => h
  | b :: bs => fnv1Spec (((h * 1099511628211) % 2 ^ 64) ^^^ b) bs

instance : DecidablePred Op.sized := fun o => by
  cases o <;> unfold Op.sized <;> infer_instance

instance : DecidablePred Op.noSlash := fun o => by
  cases o <;> unfold Op.noSlash <;> infer_instance

instance : DecidablePred Op.plainName := fun o => by
  cases o <;> unfold Op.plainName <;> infer_instance

/-- The calls of scenario A: `Root()`, `Mkdir(root, "top")`, `Create(top, "a.txt")` and a
`Write` of "hello"; the state they leave is `wHello`. -/
def opsHello : List Op :=
  [Op.root, Op.mkdir 0 ⟨"top", dirMode⟩, Op.create 1 ⟨"a.txt", defaultFilePerms⟩,
   Op.write 2 ⟨hello, 0⟩]

/-- The state after `Create(root, "a.txt")` (pointer 1) and `Remove(root, "a.txt")`. -/
def wRemoved : World :=
  (Node.Remove (Node.Create wRoot 0 ⟨"a.txt", defaultFilePerms⟩).2 0 ⟨"a.txt", false⟩).2

/-- Calls that create the name "a" twice under the root, then the directory "b". -/
def opsTwice : List Op :=
  [Op.root, Op.create 0 ⟨"a", defaultFilePerms⟩, Op.create 0 ⟨"a", defaultFilePerms⟩,
   Op.mkdir 0 ⟨"b", dirMode⟩]

/-- The state after scenario A and `Remove(root, "top")` as a directory removal: the record
of `/top/a.txt` (pointer 2) is left without its directory. -/
def wOrphan : World := (Node.Remove wHello 0 ⟨"top", true⟩).2

/-- The state after `wOrphan` and a second `Mkdir(root, "top")`; the new directory is
pointer 3. -/
def wReborn : World := (Node.Mkdir wOrphan 0 ⟨"top", dirMode⟩).2

/-- A name whose path under the root, `/vKRBdIN0AZea`, has the FNV-1 hash of the empty
path. -/
def hashName : String := "vKRBdIN0AZea"

/-- The state after `Mkdir(root, hashName)` (pointer 1), `Create` of `hashName` in it
(pointer 2), a `Write` of "hello" to that file, `Remove(root, hashName)` as a directory
removal and a second `Mkdir(root, hashName)` (pointer 3). -/
def wHashReborn : World :=
  (Node.Mkdir
    (Node.Remove
      (Node.Write
        (Node.Create (Node.Mkdir wRoot 0 ⟨hashName, dirMode⟩).2 1
          ⟨hashName, defaultFilePerms⟩).2
        2 ⟨hello, 0⟩ ⟨0⟩).2
      0 ⟨hashName, true⟩).2
    0 ⟨hashName, dirMode⟩).2

/-- The state after `Create(root, "c")` (pointer 1), `Mkdir(root, "d")` (pointer 2),
`Create` of "c" in that directory (pointer 3), a `Write` of "hello" to it and
`Remove(root, "d")` as a directory removal. -/
def wChildFirst : World :=
  (Node.Remove
    (Node.Write
      (Node.Create
        (Node.Mkdir (Node.Create wRoot 0 ⟨"c", defaultFilePerms⟩).2 0 ⟨"d", dirMode⟩).2 2
        ⟨"c", defaultFilePerms⟩).2
      3 ⟨hello, 0⟩ ⟨0⟩).2
    0 ⟨"d", true⟩).2

/-- The state after `Create(root, "a.txt")` (pointer 1), `Remove(root, "a.txt")` and a
`Write` of "hello" through pointer 1. -/
def wStale : World := (Node.Write wRemoved 1 ⟨hello, 0⟩ ⟨0⟩).2

/-- The state after `Create(root, hashName)` on the state that holds only the root; the
file is pointer 1. -/
def wHashFile : World := (Node.Create wRoot 0 ⟨hashName, defaultFilePerms⟩).2

/-- The state after `Mkdir(root, hashName)` on the state that holds only the root; the
directory is pointer 1. -/
def wHashDir : World := (Node.Mkdir wRoot 0 ⟨hashName, dirMode⟩).2

/-- The state after `Create(root, hashName)` (pointer 1), `Remove(root, hashName)` and a
`Write` of "hello" through pointer 1. -/
def wHashStale : World :=
  (Node.Write
    (Node.Remove (Node.Create wRoot 0 ⟨hashName, defaultFilePerms⟩).2 0 ⟨hashName, false⟩).2
    1 ⟨hello, 0⟩ ⟨0⟩).2

/-! ## Lemmas on the store and on `Sprintf` -/

theorem first_eq_some_mem {w : World} {k : String} {p : Nat} (h : Txn.First w k = some p) :
    (k, p) ∈ w.db := by
  unfold Txn.First at h
  cases hf : w.db.find? (fun e => e.1 == k) with
  | none => simp [hf] at h
  | some e =>
    simp [hf] at h
    have h1 := List.find?_some hf
    have h2 := List.mem_of_find?_eq_some hf
    simp at h1
    obtain ⟨a, b⟩ := e
    simp at h h1
    subst h h1
    exact h2

theorem insert_ok {w : World} {p : Nat} {nd : Node} (hn : w.heap[p]? = some nd)
    (hk : nd.Path ≠ "") :
    Txn.Insert w p =
      .ok { w with db := (nd.Path, p) :: w.db.filter (fun e => e.1 != nd.Path) } := by
  simp [Txn.Insert, hn, hk]

theorem first_insert_self (w : World) (k : String) (p : Nat) (db : List (String × Nat)) :
    Txn.First { w with db := (k, p) :: db } k = some p := by
  simp [Txn.First]

theorem find_filter_ne (l : List (String × Nat)) (k k2 : String) (h : k2 ≠ k) :
    (l.filter (fun e => e.1 != k)).find? (fun e => e.1 == k2) = l.find? (fun e => e.1 == k2) := by
  induction l with
  | nil => rfl
  | cons e t ih =>
    obtain ⟨a, b⟩ := e
    by_cases he : a = k
    · subst he
      have h3 : (a == k2) = false := by simpa using fun h2 => h h2.symm
      simp [List.filter_cons, List.find?_cons, h3, ih]
    · by_cases h2 : a = k2
      · subst h2
        simp [List.filter_cons, he, List.find?_cons]
      · have h3 : (a == k2) = false := by simpa using h2
        simp [List.filter_cons, he, List.find?_cons, h3, ih]

theorem find_filter_self (l : List (String × Nat)) (k : String) :
    (l.filter (fun e => e.1 != k)).find? (fun e => e.1 == k) = none := by
  simp [List.find?_eq_none]

theorem first_insert_other (w : World) (k k2 : String) (p : Nat) (h : k2 ≠ k) :
    Txn.First { w with db := (k, p) :: w.db.filter (fun e => e.1 != k) } k2 = Txn.First w k2 := by
  have hk : (k == k2) = false := by simpa using fun h2 => h h2.symm
  simp only [Txn.First, List.find?_cons, hk, find_filter_ne _ _ _ h]

theorem first_delete_self (w : World) (k : String) : Txn.First (Txn.DeleteAll w k).2 k = none := by
  simp [Txn.First, Txn.DeleteAll, find_filter_self]

theorem first_delete_other (w : World) (k k2 : String) (h : k2 ≠ k) :
    Txn.First (Txn.DeleteAll w k).2 k2 = Txn.First w k2 := by
  simp [Txn.First, Txn.DeleteAll, find_filter_ne _ _ _ h]

theorem isRegular_iff (nd : Node) : nd.isRegular = FileMode.IsRegular nd.Mode := rfl

/-- The state in which `Write` leaves a regular node given a non-empty payload and an
offset that is not negative. -/
theorem write_eq {w : World} {n : Nat} {nd : Node} (req : WriteRequest) (resp : WriteResponse)
    (hn : w.heap[n]? = some nd) (hreg : nd.isRegular = true) (hk : nd.Path ≠ "")
    (hB : req.Data ≠ []) (ho : 0 ≤ req.Offset) :
    Node.Write w n req resp =
      (.ok { resp with Size := req.Data.length },
       { heap := w.heap.set n { nd with Data := req.Data, Size := req.Data.length % 2 ^ 64 },
         db := (nd.Path, n) :: w.db.filter (fun e => e.1 != nd.Path) }) := by
  have hlt : n < w.heap.length := by
    by_contra hc
    rw [List.getElem?_eq_none (by omega)] at hn
    cases hn
  have hreg2 : FileMode.IsRegular nd.Mode = true := hreg
  have ho2 : ¬ req.Offset < 0 := by omega
  have hB2 : ¬ req.Data.length = 0 := by
    intro h
    exact hB (List.length_eq_zero.mp h)
  simp [Node.Write, hn, hreg2, ho2, hB2, Txn.Insert, List.getElem?_set, hlt, hk]

theorem doPrintf_plain (cs : List Char) (h : '%' ∉ cs) :
    ∀ fuel, cs.length ≤ fuel → doPrintf fuel cs = cs := by
  induction cs with
  | nil => intro fuel _; cases fuel <;> rfl
  | cons c t ih =>
    intro fuel hf
    cases fuel with
    | zero => simp at hf
    | succ f =>
      have hc : c ≠ '%' := fun hc => h (by simp [hc])
      have ht : '%' ∉ t := fun ht => h (List.mem_cons_of_mem _ ht)
      simp [doPrintf, hc, ih ht f (by simpa using hf)]

/-- A format without a percent sign is returned as it is. -/
theorem Sprintf_plain (s : String) (h : '%' ∉ s.data) : Sprintf s = s := by
  unfold Sprintf
  rw [doPrintf_plain s.data h _ (le_refl _)]

theorem verbEnd_ne_nil (out cs : List Char) (good : Bool) : (verbEnd out cs good).1 ≠ [] := by
  unfold verbEnd
  repeat' split
  all_goals simp

theorem doVerb_ne_nil (cs : List Char) : (doVerb cs).1 ≠ [] :=
  verbEnd_ne_nil _ _ _

theorem doPrintf_ne_nil (c : Char) (cs : List Char) (fuel : Nat) :
    doPrintf (fuel + 1) (c :: cs) ≠ [] := by
  by_cases hc : c = '%'
  · simp [doPrintf, hc, doVerb_ne_nil]
  · simp [doPrintf, hc]

/-- A non-empty format gives a non-empty text. -/
theorem Sprintf_ne_empty (s : String) (h : s ≠ "") : Sprintf s ≠ "" := by
  obtain ⟨cs⟩ := s
  cases cs with
  | nil => exact absurd rfl h
  | cons c t =>
    intro hs
    have := congrArg String.data hs
    simp only [Sprintf, List.length_cons] at this
    exact doPrintf_ne_nil c t _ this

theorem path_ne_empty (p name : String) : Sprintf (p ++ "/" ++ name) ≠ "" := by
  apply Sprintf_ne_empty
  intro h
  have h2 := congrArg String.length h
  simp only [String.length_append] at h2
  have h3 : "/".length = 1 := rfl
  have h4 : "".length = 0 := rfl
  omega

/-- A mode with the directory bit is not a regular mode. -/
theorem isRegular_of_isDir (m : Nat) (h : FileMode.IsDir m = true) : FileMode.IsRegular m = false := by
  simp only [FileMode.IsDir, FileMode.IsRegular, bne_iff_ne, ne_eq, beq_eq_false_iff_ne] at h ⊢
  intro hz
  apply h
  have h1 : ModeType &&& ModeDir = ModeDir := by decide
  rw [← h1, ← Nat.land_assoc, hz, Nat.zero_and]

theorem create_eq {w : World} {n : Nat} {nd : Node} (req : CreateRequest)
    (hn : w.heap[n]? = some nd) (hd : nd.isDir = true)
    (h1 : FileMode.IsDir req.Mode = false) (h2 : FileMode.IsRegular req.Mode = true) :
    Node.Create w n req =
      (.ok (w.heap.length, w.heap.length),
       { heap := w.heap ++ [MDBFS.newFileNode nd.Path req.Name],
         db := (Sprintf (nd.Path ++ "/" ++ req.Name), w.heap.length) ::
                 w.db.filter (fun e => e.1 != Sprintf (nd.Path ++ "/" ++ req.Name)) }) := by
  have hp : (MDBFS.newFileNode nd.Path req.Name).Path = Sprintf (nd.Path ++ "/" ++ req.Name) := rfl
  simp [Node.Create, hn, hd, h1, h2, World.alloc, MDBFS.create, Txn.Insert, hp, path_ne_empty]

theorem mkdir_eq {w : World} {n : Nat} {nd : Node} (req : MkdirRequest)
    (hn : w.heap[n]? = some nd) (hd : nd.isDir = true)
    (h1 : FileMode.IsDir req.Mode = true) :
    Node.Mkdir w n req =
      (.ok w.heap.length,
       { heap := w.heap ++ [MDBFS.newDirNode nd.Path req.Name],
         db := (Sprintf (nd.Path ++ "/" ++ req.Name), w.heap.length) ::
                 w.db.filter (fun e => e.1 != Sprintf (nd.Path ++ "/" ++ req.Name)) }) := by
  have hp : (MDBFS.newDirNode nd.Path req.Name).Path = Sprintf (nd.Path ++ "/" ++ req.Name) := rfl
  simp [Node.Mkdir, hn, hd, h1, World.alloc, MDBFS.create, Txn.Insert, hp, path_ne_empty]

theorem path_plain (p name : String) (hp : '%' ∉ p.data) (hq : '%' ∉ name.data) :
    Sprintf (p ++ "/" ++ name) = p ++ "/" ++ name := by
  apply Sprintf_plain
  simp only [String.data_append, List.mem_append, not_or]
  exact ⟨⟨hp, by decide⟩, hq⟩

theorem heap_lt {w : World} {n : Nat} {nd : Node} (hn : w.heap[n]? = some nd) :
    n < w.heap.length := by
  by_contra hc
  rw [List.getElem?_eq_none (by omega)] at hn
  cases hn

theorem heap_append {w : World} {n : Nat} {nd : Node} (x : Node) (hn : w.heap[n]? = some nd) :
    (w.heap ++ [x])[n]? = some nd := by
  rw [List.getElem?_append_left (heap_lt hn)]
  exact hn

/-- What `Lookup` answers when the record at the key is the node at `p`, with another
`ID` than the directory. -/
theorem lookup_eq {w : World} {n p : Nat} {nd r : Node} (name : String)
    (hn : w.heap[n]? = some nd) (hd : nd.isDir = true)
    (hf : Txn.First w (Sprintf (nd.Path ++ "/" ++ name)) = some p)
    (hr : w.heap[p]? = some r) (hid : r.ID ≠ nd.ID) :
    Node.Lookup w n name = .ok p := by
  simp [Node.Lookup, MDBFS.lookup, hn, hd, hf, hr, hid]

/-! ## The fuel of `doPrintf` is enough -/

theorem parsenum_length (cs : List Char) :
    ∀ (num : Nat) (isnum : Bool), ((parsenum num isnum cs).2.2.getD []).length ≤ cs.length := by
  induction cs with
  | nil => intro num isnum; simp [parsenum]
  | cons c t ih =>
    intro num isnum
    unfold parsenum
    split
    · split
      · simp
      · exact Nat.le_succ_of_le (ih _ _)
    · simp

theorem argNumber_length (cs : List Char) (good : Bool) :
    (argNumber cs good).1.length ≤ cs.length := by
  unfold argNumber
  split
  · simp only [List.length_drop]
    omega
  · exact le_refl _

theorem verbWidth_length (cs : List Char) (a g : Bool) :
    (verbWidth cs a g).2.1.length ≤ cs.length := by
  unfold verbWidth
  split
  · simp
  · exact parsenum_length _ _ _

theorem precAfterIndex_length (cs : List Char) (a g : Bool) :
    (precAfterIndex cs a g).2.1.length ≤ cs.length := by
  unfold precAfterIndex
  split
  · simp
  · exact parsenum_length _ _ _

theorem verbPrec_length (cs : List Char) (a g : Bool) :
    (verbPrec cs a g).2.1.length ≤ cs.length := by
  unfold verbPrec
  split
  · rename_i rest
    have h1 := argNumber_length rest (if a then false else g)
    have h2 := precAfterIndex_length (argNumber rest (if a then false else g)).1
      (argNumber rest (if a then false else g)).2.1 (argNumber rest (if a then false else g)).2.2
    simp only [List.length_cons]
    omega
  · exact le_refl _

theorem verbEnd_length (out cs : List Char) (good : Bool) :
    (verbEnd out cs good).2.length ≤ cs.length := by
  unfold verbEnd
  repeat' split
  all_goals simp

theorem doVerb_length (cs : List Char) : (doVerb cs).2.length ≤ cs.length := by
  have h0 : (cs.dropWhile isFlag).length ≤ cs.length :=
    (List.dropWhile_sublist isFlag).length_le
  have h1 := argNumber_length (cs.dropWhile isFlag) true
  have h2 := verbWidth_length (argNumber (cs.dropWhile isFlag) true).1
    (argNumber (cs.dropWhile isFlag) true).2.1 (argNumber (cs.dropWhile isFlag) true).2.2
  unfold doVerb
  simp only
  generalize argNumber (cs.dropWhile isFlag) true = r1 at h1 h2 ⊢
  have h3 := verbPrec_length (verbWidth r1.1 r1.2.1 r1.2.2).2.1
    (verbWidth r1.1 r1.2.1 r1.2.2).2.2.1 (verbWidth r1.1 r1.2.1 r1.2.2).2.2.2
  generalize verbWidth r1.1 r1.2.1 r1.2.2 = r2 at h2 h3 ⊢
  generalize verbPrec r2.2.1 r2.2.2.1 r2.2.2.2 = r3 at h3 ⊢
  have h4 : (if r3.2.2.1 = true then (r3.2.1, r3.2.2.1, r3.2.2.2)
      else argNumber r3.2.1 r3.2.2.2).1.length ≤ r3.2.1.length := by
    split
    · exact le_refl _
    · exact argNumber_length _ _
  have h5 := verbEnd_length (r2.1 ++ r3.1)
    (if r3.2.2.1 = true then (r3.2.1, r3.2.2.1, r3.2.2.2) else argNumber r3.2.1 r3.2.2.2).1
    (if r3.2.2.1 = true then (r3.2.1, r3.2.2.1, r3.2.2.2) else argNumber r3.2.1 r3.2.2.2).2.2
  omega

/-- More fuel than characters changes nothing: `Sprintf` reads its whole format. -/
theorem doPrintf_fuel (n : Nat) :
    ∀ (cs : List Char) (f : Nat), cs.length ≤ n → cs.length ≤ f →
      doPrintf f cs = doPrintf cs.length cs := by
  induction n with
  | zero =>
    intro cs f hn _
    have : cs = [] := List.length_eq_zero.mp (Nat.le_zero.mp hn)
    subst this
    cases f <;> rfl
  | succ m ih =>
    intro cs f hn hf
    cases cs with
    | nil => cases f <;> rfl
    | cons c t =>
      cases f with
      | zero => simp at hf
      | succ g =>
        have ht : t.length ≤ m := by simpa using hn
        have hg : t.length ≤ g := by simpa using hf
        simp only [doPrintf, List.length_cons]
        split
        · have hv := doVerb_length t
          rw [ih (doVerb t).2 g (by omega) (by omega),
              ih (doVerb t).2 t.length (by omega) hv]
        · rw [ih t g ht hg]

/-! ## The store invariant is kept by every handler -/

theorem World.WF_empty : World.empty.WF := by decide

theorem nodup_insert (db : List (String × Nat)) (k : String) (p : Nat)
    (h : (db.map Prod.fst).Nodup) :
    (((k, p) :: db.filter (fun e => e.1 != k)).map Prod.fst).Nodup := by
  simp only [List.map_cons, List.nodup_cons]
  constructor
  · simp
  · exact (List.Nodup.sublist ((List.filter_sublist db).map Prod.fst) h)

theorem nodup_delete (db : List (String × Nat)) (k : String)
    (h : (db.map Prod.fst).Nodup) :
    ((db.filter (fun e => e.1 != k)).map Prod.fst).Nodup :=
  List.Nodup.sublist ((List.filter_sublist db).map Prod.fst) h

/-- Allocation keeps the invariant. -/
theorem WF_alloc {w : World} (x : Node) (h : w.WF) : (w.alloc x).2.WF := by
  refine ⟨fun e he => ?_, h.2⟩
  obtain ⟨h1, h2⟩ := h.1 e he
  refine ⟨h1, ?_⟩
  cases hq : w.heap[e.2]? with
  | none => simp [hq] at h2
  | some nd =>
    have := heap_append x hq
    simp only [World.alloc, this]
    simpa [hq] using h2

/-- Inserting the node at `p` under its own non-empty `Path` keeps the invariant. -/
theorem WF_insert {w : World} {p : Nat} {x : Node} (h : w.WF) (hn : w.heap[p]? = some x)
    (hk : x.Path ≠ "") :
    World.WF { w with db := (x.Path, p) :: w.db.filter (fun e => e.1 != x.Path) } := by
  refine ⟨fun e he => ?_, nodup_insert _ _ _ h.2⟩
  simp only [List.mem_cons, List.mem_filter] at he
  rcases he with he | he
  · subst he
    simp [hn, hk]
  · exact h.1 e he.1

/-- Deleting a key keeps the invariant. -/
theorem WF_delete {w : World} (k : String) (h : w.WF) : (Txn.DeleteAll w k).2.WF := by
  refine ⟨fun e he => ?_, nodup_delete _ _ h.2⟩
  simp only [Txn.DeleteAll, List.mem_filter] at he
  exact h.1 e he.1

/-- Assigning `Data` and `Size` of a node keeps the invariant: no `Path` changes. -/
theorem WF_set {w : World} {n : Nat} {nd : Node} (d : List UInt8) (sz : Nat) (h : w.WF)
    (hn : w.heap[n]? = some nd) :
    World.WF { w with heap := w.heap.set n { nd with Data := d, Size := sz } } := by
  refine ⟨fun e he => ?_, h.2⟩
  obtain ⟨h1, h2⟩ := h.1 e he
  refine ⟨h1, ?_⟩
  by_cases hq : n = e.2
  · subst hq
    simp only [List.getElem?_set, heap_lt hn, if_true]
    simpa [hn] using h2
  · simpa [List.getElem?_set_ne hq] using h2

theorem WF_Root (w : World) (h : w.WF) : ∀ r, MDBFS.Root w = .ok r → r.2.WF := by
  intro r hr
  simp only [MDBFS.Root, Except.ok.injEq] at hr
  subst hr
  exact WF_alloc _ h

theorem WF_alloc_insert {w : World} (x : Node) (h : w.WF) (hk : x.Path ≠ "") :
    World.WF { heap := w.heap ++ [x],
               db := (x.Path, w.heap.length) :: w.db.filter (fun e => e.1 != x.Path) } :=
  WF_insert (w := (w.alloc x).2) (p := w.heap.length) (x := x) (WF_alloc x h)
    (by simp [World.alloc]) hk

/-- `Mkdir` keeps the invariant. -/
theorem WF_Mkdir (w : World) (n : Nat) (req : MkdirRequest) (h : w.WF) :
    (Node.Mkdir w n req).2.WF := by
  cases hn : w.heap[n]? with
  | none => simpa [Node.Mkdir, hn] using h
  | some nd =>
    by_cases hd : nd.isDir = true
    · by_cases h1 : FileMode.IsDir req.Mode = true
      · rw [mkdir_eq req hn hd h1]
        exact WF_alloc_insert (MDBFS.newDirNode nd.Path req.Name) h (path_ne_empty _ _)
      · simpa [Node.Mkdir, hn, hd, h1] using h
    · simpa [Node.Mkdir, hn, hd] using h

/-- `Create` keeps the invariant. -/
theorem WF_Create (w : World) (n : Nat) (req : CreateRequest) (h : w.WF) :
    (Node.Create w n req).2.WF := by
  cases hn : w.heap[n]? with
  | none => simpa [Node.Create, hn] using h
  | some nd =>
    by_cases hd : nd.isDir = true
    · by_cases h1 : FileMode.IsDir req.Mode = true
      · simpa [Node.Create, hn, hd, h1] using h
      · by_cases h2 : FileMode.IsRegular req.Mode = true
        · rw [create_eq req hn hd (by simpa using h1) h2]
          exact WF_alloc_insert (MDBFS.newFileNode nd.Path req.Name) h (path_ne_empty _ _)
        · simpa [Node.Create, hn, hd, h1, h2] using h
    · simpa [Node.Create, hn, hd] using h

/-- `Remove` keeps the invariant. -/
theorem WF_Remove (w : World) (n : Nat) (req : RemoveRequest) (h : w.WF) :
    (Node.Remove w n req).2.WF := by
  cases hn : w.heap[n]? with
  | none => simpa [Node.Remove, hn] using h
  | some nd =>
    by_cases hd : FileMode.IsDir nd.Mode = true
    · cases hr : req.Dir <;>
        simpa [Node.Remove, hn, hd, hr, MDBFS.remove] using WF_delete _ h
    · simpa [Node.Remove, hn, hd] using h

/-- `Write` keeps the invariant, also when its insert is refused. -/
theorem WF_Write (w : World) (n : Nat) (req : WriteRequest) (resp : WriteResponse) (h : w.WF) :
    (Node.Write w n req resp).2.WF := by
  cases hn : w.heap[n]? with
  | none => simpa [Node.Write, hn] using h
  | some nd =>
    by_cases hr : FileMode.IsRegular nd.Mode = true
    · by_cases ho : req.Offset < 0
      · simpa [Node.Write, hn, hr, ho] using h
      · by_cases hB : req.Data.length = 0
        · simpa [Node.Write, hn, hr, ho, hB] using h
        · have hset := WF_set req.Data (req.Data.length % 2 ^ 64) h hn
          by_cases hk : nd.Path = ""
          · simpa [Node.Write, hn, hr, ho, hB, Txn.Insert, List.getElem?_set, heap_lt hn, hk]
              using hset
          · rw [write_eq req resp hn hr hk (fun hc => hB (by simp [hc])) (by omega)]
            exact WF_insert hset
              (x := Node.mk nd.Path nd.Name nd.ID nd.Mode nd.SymlinkTarget
                (req.Data.length % 2 ^ 64) req.Data)
              (by simp [List.getElem?_set, heap_lt hn]) hk
    · simpa [Node.Write, hn, hr] using h

/-! ## What the handlers do when no percent sign is involved -/

theorem slash_plain (p : String) (hp : '%' ∉ p.data) : Sprintf (p ++ "/") = p ++ "/" := by
  apply Sprintf_plain
  simp only [String.data_append, List.mem_append, not_or]
  exact ⟨hp, by decide⟩

/-- `Lookup` of a name under a directory answers ENOENT when the store has no record at
`D.Path + "/" + name` (path and name without a percent sign). -/
theorem lookup_missing_plain (w : World) (n : Nat) (nd : Node) (name : String)
    (hn : w.heap[n]? = some nd) (hd : nd.isDir = true)
    (hp : '%' ∉ nd.Path.data) (hq : '%' ∉ name.data)
    (hnone : Txn.First w (nd.Path ++ "/" ++ name) = none) :
    Node.Lookup w n name = .error .ENOENT := by
  simp [Node.Lookup, MDBFS.lookup, hn, hd, path_plain _ _ hp hq, hnone]

/-- `Lookup` on a node that is not a directory answers ENOTDIR. -/
theorem lookup_notdir (w : World) (n : Nat) (nd : Node) (name : String)
    (hn : w.heap[n]? = some nd) (hd : nd.isDir = false) :
    Node.Lookup w n name = .error .ENOTDIR := by
  simp [Node.Lookup, hn, hd]

/-- `Remove` under a directory succeeds; the state it leaves has the same memory, no record
at the key `Sprintf(D.Path + "/" + name)` and the same record at every other key. -/
theorem remove_frame (w : World) (n : Nat) (nd : Node) (req : RemoveRequest)
    (hn : w.heap[n]? = some nd) (hd : nd.isDir = true) :
    (Node.Remove w n req).1 = .ok () ∧
    (Node.Remove w n req).2.heap = w.heap ∧
    Txn.First (Node.Remove w n req).2 (Sprintf (nd.Path ++ "/" ++ req.Name)) = none ∧
    ∀ k, k ≠ Sprintf (nd.Path ++ "/" ++ req.Name) →
      Txn.First (Node.Remove w n req).2 k = Txn.First w k := by
  have hd2 : FileMode.IsDir nd.Mode = true := hd
  have he : Node.Remove w n req =
      (.ok (), (Txn.DeleteAll w (Sprintf (nd.Path ++ "/" ++ req.Name))).2) := by
    cases hr : req.Dir <;> simp [Node.Remove, hn, hd2, hr, MDBFS.remove]
  rw [he]
  exact ⟨rfl, rfl, first_delete_self _ _, fun k hk => first_delete_other _ _ _ hk⟩

/-- After `Remove`, `Lookup` of the same name under the same directory answers ENOENT. -/
theorem lookup_after_remove (w : World) (n : Nat) (nd : Node) (req : RemoveRequest)
    (hn : w.heap[n]? = some nd) (hd : nd.isDir = true) :
    Node.Lookup (Node.Remove w n req).2 n req.Name = .error .ENOENT := by
  obtain ⟨_, h2, h3, _⟩ := remove_frame w n nd req hn hd
  have hn2 : (Node.Remove w n req).2.heap[n]? = some nd := by rw [h2]; exact hn
  simp [Node.Lookup, MDBFS.lookup, hn2, hd, h3]

/-- `Create` with a regular mode under a directory succeeds whatever the store holds; the
state it leaves has exactly one record at the key `Sprintf(D.Path + "/" + name)`, the new
node, which is the node `newFileNode` builds; every other key and every node allocated
before are as they were. -/
theorem create_upsert (w : World) (n : Nat) (nd : Node) (req : CreateRequest)
    (hn : w.heap[n]? = some nd) (hd : nd.isDir = true)
    (h1 : FileMode.IsDir req.Mode = false) (h2 : FileMode.IsRegular req.Mode = true) :
    (Node.Create w n req).1 = .ok (w.heap.length, w.heap.length) ∧
    ((Node.Create w n req).2.db.filter
      (fun e => e.1 == Sprintf (nd.Path ++ "/" ++ req.Name))) =
        [(Sprintf (nd.Path ++ "/" ++ req.Name), w.heap.length)] ∧
    (Node.Create w n req).2.heap[w.heap.length]? = some (MDBFS.newFileNode nd.Path req.Name) ∧
    (∀ k, k ≠ Sprintf (nd.Path ++ "/" ++ req.Name) →
      Txn.First (Node.Create w n req).2 k = Txn.First w k) ∧
    (∀ (p : Nat) (x : Node), w.heap[p]? = some x → (Node.Create w n req).2.heap[p]? = some x) := by
  rw [create_eq req hn hd h1 h2]
  refine ⟨rfl, ?_, by simp, fun k hk => ?_, fun p x hx => heap_append _ hx⟩
  · simp [List.filter_cons, List.filter_filter]
  · exact first_insert_other w _ k _ hk

/-- `Mkdir` with a directory mode under a directory succeeds whatever the store holds, with
the same effect on the store as `Create`. -/
theorem mkdir_upsert (w : World) (n : Nat) (nd : Node) (req : MkdirRequest)
    (hn : w.heap[n]? = some nd) (hd : nd.isDir = true)
    (h1 : FileMode.IsDir req.Mode = true) :
    (Node.Mkdir w n req).1 = .ok w.heap.length ∧
    ((Node.Mkdir w n req).2.db.filter
      (fun e => e.1 == Sprintf (nd.Path ++ "/" ++ req.Name))) =
        [(Sprintf (nd.Path ++ "/" ++ req.Name), w.heap.length)] ∧
    (Node.Mkdir w n req).2.heap[w.heap.length]? = some (MDBFS.newDirNode nd.Path req.Name) ∧
    (∀ k, k ≠ Sprintf (nd.Path ++ "/" ++ req.Name) →
      Txn.First (Node.Mkdir w n req).2 k = Txn.First w k) ∧
    (∀ (p : Nat) (x : Node), w.heap[p]? = some x → (Node.Mkdir w n req).2.heap[p]? = some x) := by
  rw [mkdir_eq req hn hd h1]
  refine ⟨rfl, ?_, by simp, fun k hk => ?_, fun p x hx => heap_append _ hx⟩
  · simp [List.filter_cons, List.filter_filter]
  · exact first_insert_other w _ k _ hk

/-! ## The listing -/

theorem listLoop_eq (w : World) (nd : Node) (nodes : List Nat)
    (h : ∀ e ∈ nodes, ∃ en, w.heap[e]? = some en) :
    ∀ acc, MDBFS.listLoop w nd nodes acc = .ok (acc ++ nodes.filterMap (MDBFS.listEntry w nd)) := by
  induction nodes with
  | nil => intro acc; simp [MDBFS.listLoop]
  | cons e t ih =>
    intro acc
    obtain ⟨en, hen⟩ := h e (by simp)
    have iht := ih (fun x hx => h x (List.mem_cons_of_mem _ hx))
    by_cases hc : (Replace1 en.Path (Sprintf (nd.Path ++ "/")) "" != en.Name) = true
    · simp [MDBFS.listLoop, hen, hc, iht, MDBFS.listEntry, List.filterMap_cons]
    · simp [MDBFS.listLoop, hen, hc, iht, MDBFS.listEntry, List.filterMap_cons]

theorem mem_getPrefix (w : World) (p : String) (e : Nat) :
    e ∈ Txn.GetPrefix w p ↔ ∃ k, (k, e) ∈ w.db ∧ p.data.isPrefixOf k.data = true := by
  simp only [Txn.GetPrefix, List.mem_map, (List.perm_insertionSort keyLE _).mem_iff,
    List.mem_filter]
  constructor
  · rintro ⟨⟨k, q⟩, ⟨hm, hp⟩, rfl⟩
    exact ⟨k, hm, hp⟩
  · rintro ⟨k, hm, hp⟩
    exact ⟨(k, e), ⟨hm, hp⟩, rfl⟩

theorem getPrefix_allocated (w : World) (hwf : w.WF) (p : String) :
    ∀ e ∈ Txn.GetPrefix w p, ∃ en, w.heap[e]? = some en := by
  intro e he
  obtain ⟨k, hm, _⟩ := (mem_getPrefix w p e).1 he
  have := (hwf.1 _ hm).2
  cases hq : w.heap[e]? with
  | none => simp [hq] at this
  | some en => exact ⟨en, rfl⟩

/-- In a well-formed store the listing of a directory succeeds, and its entries are the
entries of the records of the prefix scan that pass the comparison of the loop. -/
theorem readDirAll_eq (w : World) (n : Nat) (nd : Node) (hwf : w.WF)
    (hn : w.heap[n]? = some nd) (hd : nd.isDir = true) :
    Node.ReadDirAll w n = .ok ((Txn.GetPrefix w nd.Path).filterMap (MDBFS.listEntry w nd)) := by
  simp [Node.ReadDirAll, MDBFS.list, hn, hd, listLoop_eq w nd _ (getPrefix_allocated w hwf _)]

theorem replaceFirst_append (old v : List Char) : replaceFirst old [] (old ++ v) = v := by
  cases hs : old ++ v with
  | nil =>
    have := List.append_eq_nil.mp hs
    simp [replaceFirst, this.1, this.2]
  | cons c cs =>
    have hp : old.isPrefixOf (c :: cs) = true := by
      rw [← hs]
      exact List.isPrefixOf_iff_prefix.mpr (List.prefix_append _ _)
    simp only [replaceFirst, hp, if_true, List.nil_append]
    rw [← hs]
    simp

/-- The outcome of `replaceFirst`: nothing found, or one occurrence cut out. -/
theorem replaceFirst_cases (old : List Char) (s : List Char) :
    replaceFirst old [] s = s ∨
    ∃ u v, s = u ++ old ++ v ∧ replaceFirst old [] s = u ++ v := by
  induction s with
  | nil => left; simp [replaceFirst]
  | cons c cs ih =>
    by_cases hp : old.isPrefixOf (c :: cs) = true
    · right
      obtain ⟨v, hv⟩ := List.isPrefixOf_iff_prefix.mp hp
      refine ⟨[], v, by simp [hv], ?_⟩
      rw [← hv, replaceFirst_append]
      simp
    · rcases ih with ih | ⟨u, v, h1, h2⟩
      · left
        simp [replaceFirst, hp, ih]
      · right
        refine ⟨c :: u, v, by simp [h1], ?_⟩
        simp [replaceFirst, hp, h2]

theorem replace1_child (p name : String) : Replace1 (p ++ "/" ++ name) (p ++ "/") "" = name := by
  unfold Replace1
  have h : (p ++ "/" ++ name).data = (p ++ "/").data ++ name.data := by simp
  rw [h]
  show String.mk (replaceFirst (p ++ "/").data [] ((p ++ "/").data ++ name.data)) = name
  rw [replaceFirst_append]

/-- Completeness of the listing: in a well-formed store, for a directory whose path has no
percent sign, every record whose `Path` is `D.Path + "/" + Name` is listed, with its
`Name` and its `ID`. -/
theorem listing_complete (w : World) (n p : Nat) (nd e : Node) (hwf : w.WF)
    (hn : w.heap[n]? = some nd) (hd : nd.isDir = true) (hp : '%' ∉ nd.Path.data)
    (hm : (e.Path, p) ∈ w.db) (he : w.heap[p]? = some e)
    (hpath : e.Path = nd.Path ++ "/" ++ e.Name) :
    ∃ ds, Node.ReadDirAll w n = .ok ds ∧
      ({ Inode := e.ID, Typ := DT_Unknown, Name := e.Name } : Dirent) ∈ ds := by
  refine ⟨_, readDirAll_eq w n nd hwf hn hd, ?_⟩
  rw [List.mem_filterMap]
  refine ⟨p, (mem_getPrefix w nd.Path p).2 ⟨e.Path, hm, ?_⟩, ?_⟩
  · rw [hpath, List.isPrefixOf_iff_prefix]
    simp only [String.data_append, List.append_assoc]
    exact List.prefix_append _ _
  · have hr : Replace1 e.Path (nd.Path ++ "/") "" = e.Name := by
      conv => lhs; rw [hpath]
      exact replace1_child _ _
    simp [MDBFS.listEntry, he, slash_plain _ hp, hr]

/-- Soundness of the listing: in a well-formed store whose records have a `Path` that ends
with "/" and their `Name`, for a directory whose path has no percent sign, every entry
listed is the entry of a record whose `Path` is exactly `D.Path + "/" + Name`. -/
theorem listing_sound (w : World) (n : Nat) (nd : Node) (hwf : w.WF)
    (hn : w.heap[n]? = some nd) (hd : nd.isDir = true) (hp : '%' ∉ nd.Path.data)
    (hnamed : ∀ (k : String) (p : Nat) (e : Node), (k, p) ∈ w.db → w.heap[p]? = some e →
      ∃ q : String, e.Path = q ++ "/" ++ e.Name)
    (ds : List Dirent) (hds : Node.ReadDirAll w n = .ok ds) (d : Dirent) (hmem : d ∈ ds) :
    ∃ (p : Nat) (e : Node), (e.Path, p) ∈ w.db ∧ w.heap[p]? = some e ∧
      e.Name = d.Name ∧ e.ID = d.Inode ∧ e.Path = nd.Path ++ "/" ++ d.Name := by
  rw [readDirAll_eq w n nd hwf hn hd] at hds
  cases hds
  rw [List.mem_filterMap] at hmem
  obtain ⟨p, hpm, hpe⟩ := hmem
  obtain ⟨k, hk, hpre⟩ := (mem_getPrefix w nd.Path p).1 hpm
  cases he : w.heap[p]? with
  | none => simp [MDBFS.listEntry, he] at hpe
  | some e =>
    have hkp : e.Path = k := by
      have := (hwf.1 _ hk).2
      simpa [he] using this
    obtain ⟨q, hq⟩ := hnamed k p e hk he
    simp only [MDBFS.listEntry, he, slash_plain _ hp] at hpe
    by_cases hc : (Replace1 e.Path (nd.Path ++ "/") "" != e.Name) = true
    · simp [hc] at hpe
    · simp only [hc] at hpe
      simp only [Bool.false_eq_true, if_false, Option.some.injEq] at hpe
      subst hpe
      have hrep : Replace1 e.Path (nd.Path ++ "/") "" = e.Name := by simpa using hc
      have hrd : replaceFirst (nd.Path.data ++ ['/']) [] e.Path.data = e.Name.data := by
        have := congrArg String.data hrep
        simpa [Replace1] using this
      have hsd : e.Path.data = q.data ++ '/' :: e.Name.data := by
        rw [hq]; simp
      have hpre2 : nd.Path.data <+: e.Path.data := by
        rw [hkp]; exact List.isPrefixOf_iff_prefix.mp hpre
      have hqpre : q.data <+: e.Path.data := by
        rw [hsd]; exact List.prefix_append _ _
      refine ⟨p, e, by rw [hkp]; exact hk, he, rfl, rfl, ?_⟩
      rcases replaceFirst_cases (nd.Path.data ++ ['/']) e.Path.data with h0 | ⟨u, v, h1, h2⟩
      · exfalso
        rw [hrd] at h0
        have := congrArg List.length h0
        rw [hsd] at this
        simp only [List.length_append, List.length_cons] at this
        omega
      · rw [hrd] at h2
        have hlen : nd.Path.data.length = q.data.length := by
          have e1 := congrArg List.length h1
          have e2 := congrArg List.length hsd
          have e3 := congrArg List.length h2
          simp only [List.length_append, List.length_cons, List.length_nil] at e1 e2 e3
          omega
        have heq : nd.Path.data = q.data := by
          have h3 : nd.Path.data <+: q.data :=
            List.prefix_of_prefix_length_le hpre2 hqpre (le_of_eq hlen)
          exact h3.eq_of_length hlen
        apply String.ext
        rw [hsd, ← heq]
        simp

/-! ## Invariants of the runs -/

theorem mem_heap {w : World} {n : Nat} {nd : Node} (hn : w.heap[n]? = some nd) : nd ∈ w.heap :=
  List.getElem?_mem hn

theorem Plain_alloc {w : World} (x : Node) (db : List (String × Nat)) (h : w.Plain)
    (hx : '%' ∉ x.Path.data ∧ (x.Path = "" ∨ ∃ q : String, x.Path = q ++ "/" ++ x.Name)) :
    World.Plain { heap := w.heap ++ [x], db := db } := by
  intro nd hnd
  simp only [List.mem_append, List.mem_singleton] at hnd
  rcases hnd with hnd | hnd
  · exact h nd hnd
  · subst hnd; exact hx

theorem Plain_set {w : World} {n : Nat} {nd : Node} (d : List UInt8) (sz : Nat) (h : w.Plain)
    (hn : w.heap[n]? = some nd) (db : List (String × Nat)) :
    World.Plain { heap := w.heap.set n { nd with Data := d, Size := sz }, db := db } := by
  intro x hx
  rcases List.mem_or_eq_of_mem_set hx with hx | hx
  · exact h x hx
  · subst hx
    exact h nd (mem_heap hn)

theorem child_plain {w : World} {n : Nat} {nd : Node} (name : String) (h : w.Plain)
    (hn : w.heap[n]? = some nd) (hq : '%' ∉ name.data) :
    Sprintf (nd.Path ++ "/" ++ name) = nd.Path ++ "/" ++ name ∧
    '%' ∉ (nd.Path ++ "/" ++ name).data := by
  have hp := (h nd (mem_heap hn)).1
  refine ⟨path_plain _ _ hp hq, ?_⟩
  simp only [String.data_append, List.mem_append, not_or]
  exact ⟨⟨hp, by decide⟩, hq⟩

/-- One call with a name without a percent sign keeps `Plain`. -/
theorem Plain_step (w : World) (o : Op) (h : w.Plain) (ho : o.plainName) : (step w o).Plain := by
  cases o with
  | root =>
    simp only [step, MDBFS.Root, World.alloc]
    exact Plain_alloc _ _ h ⟨by decide, Or.inl rfl⟩
  | mkdir n req =>
    simp only [step]
    cases hn : w.heap[n]? with
    | none => simpa [Node.Mkdir, hn] using h
    | some nd =>
      by_cases hd : nd.isDir = true
      · by_cases h1 : FileMode.IsDir req.Mode = true
        · rw [mkdir_eq req hn hd h1]
          obtain ⟨c1, c2⟩ := child_plain req.Name h hn ho
          refine Plain_alloc _ _ h ?_
          simp only [MDBFS.newDirNode, c1]
          exact ⟨c2, Or.inr ⟨nd.Path, rfl⟩⟩
        · simpa [Node.Mkdir, hn, hd, h1] using h
      · simpa [Node.Mkdir, hn, hd] using h
  | create n req =>
    simp only [step]
    cases hn : w.heap[n]? with
    | none => simpa [Node.Create, hn] using h
    | some nd =>
      by_cases hd : nd.isDir = true
      · by_cases h1 : FileMode.IsDir req.Mode = true
        · simpa [Node.Create, hn, hd, h1] using h
        · by_cases h2 : FileMode.IsRegular req.Mode = true
          · rw [create_eq req hn hd (by simpa using h1) h2]
            obtain ⟨c1, c2⟩ := child_plain req.Name h hn ho
            refine Plain_alloc _ _ h ?_
            simp only [MDBFS.newFileNode, c1]
            exact ⟨c2, Or.inr ⟨nd.Path, rfl⟩⟩
          · simpa [Node.Create, hn, hd, h1, h2] using h
      · simpa [Node.Create, hn, hd] using h
  | write n req =>
    simp only [step]
    cases hn : w.heap[n]? with
    | none => simpa [Node.Write, hn] using h
    | some nd =>
      by_cases hr : FileMode.IsRegular nd.Mode = true
      · by_cases hof : req.Offset < 0
        · simpa [Node.Write, hn, hr, hof] using h
        · by_cases hB : req.Data.length = 0
          · simpa [Node.Write, hn, hr, hof, hB] using h
          · by_cases hk : nd.Path = ""
            · simpa [Node.Write, hn, hr, hof, hB, Txn.Insert, List.getElem?_set, heap_lt hn, hk]
                using Plain_set req.Data (req.Data.length % 2 ^ 64) h hn w.db
            · rw [write_eq req ⟨0⟩ hn hr hk (fun hc => hB (by simp [hc])) (by omega)]
              exact Plain_set req.Data (req.Data.length % 2 ^ 64) h hn _
      · simpa [Node.Write, hn, hr] using h
  | remove n req =>
    simp only [step]
    rcases hn : w.heap[n]? with _ | nd
    · simpa [Node.Remove, hn] using h
    · by_cases hd : nd.isDir = true
      · have := (remove_frame w n nd req hn hd).2.1
        intro x hx
        rw [this] at hx
        exact h x hx
      · have hd2 : ¬ FileMode.IsDir nd.Mode = true := hd
        simpa [Node.Remove, hn, hd2] using h

/-- One call keeps the store invariant. -/
theorem WF_step (w : World) (o : Op) (h : w.WF) : (step w o).WF := by
  cases o with
  | root => exact WF_Root w h _ rfl
  | mkdir n req => exact WF_Mkdir w n req h
  | create n req => exact WF_Create w n req h
  | write n req => exact WF_Write w n req _ h
  | remove n req => exact WF_Remove w n req h

theorem run_invariants_from (ops : List Op) (hops : ∀ o ∈ ops, o.plainName) :
    ∀ w : World, w.WF → w.Plain → (ops.foldl step w).WF ∧ (ops.foldl step w).Plain := by
  induction ops with
  | nil => intro w h1 h2; exact ⟨h1, h2⟩
  | cons o t ih =>
    intro w h1 h2
    exact ih (fun x hx => hops x (List.mem_cons_of_mem _ hx)) (step w o) (WF_step w o h1)
      (Plain_step w o h2 (hops o (by simp)))

/-- Every state reached from the empty store is well formed, and, when no name created has
a percent sign, every path is the parent's path, "/" and the name. -/
theorem run_invariants (ops : List Op) (hops : ∀ o ∈ ops, o.plainName) :
    (run ops).WF ∧ (run ops).Plain :=
  run_invariants_from ops hops World.empty World.WF_empty (by intro nd hnd; cases hnd)

/-- Directory isolation in the runs without a percent sign: every entry the listing of a
directory returns is the entry of the record at exactly `D.Path + "/" + Name`. -/
theorem listing_sound_run (ops : List Op) (hops : ∀ o ∈ ops, o.plainName) (n : Nat) (nd : Node)
    (hn : (run ops).heap[n]? = some nd) (hd : nd.isDir = true)
    (ds : List Dirent) (hds : Node.ReadDirAll (run ops) n = .ok ds) (d : Dirent) (hmem : d ∈ ds) :
    ∃ (p : Nat) (e : Node), (e.Path, p) ∈ (run ops).db ∧ (run ops).heap[p]? = some e ∧
      e.Name = d.Name ∧ e.ID = d.Inode ∧ e.Path = nd.Path ++ "/" ++ d.Name := by
  obtain ⟨hwf, hpl⟩ := run_invariants ops hops
  refine listing_sound (run ops) n nd hwf hn hd (hpl nd (mem_heap hn)).1 ?_ ds hds d hmem
  intro k p e hk he
  have hne : e.Path ≠ "" := by
    have := hwf.1 _ hk
    have h2 : e.Path = k := by simpa [he] using this.2
    rw [h2]; exact this.1
  rcases (hpl e (mem_heap he)).2 with h0 | h0
  · exact absurd h0 hne
  · exact h0

theorem first_ne_none_of_mem {w : World} {k : String} {p : Nat} (h : (k, p) ∈ w.db) :
    Txn.First w k ≠ none := by
  intro hc
  simp only [Txn.First, Option.map_eq_none', List.find?_eq_none] at hc
  exact absurd (hc _ h) (by simp)

/-- After `Remove(D, name)` in a run without a percent sign, the listing of `D` has no
entry named `name`. -/
theorem listing_after_remove_run (ops : List Op) (hops : ∀ o ∈ ops, o.plainName) (n : Nat)
    (nd : Node) (req : RemoveRequest) (hq : '%' ∉ req.Name.data)
    (hn : (run ops).heap[n]? = some nd) (hd : nd.isDir = true)
    (ds : List Dirent) (hds : Node.ReadDirAll (Node.Remove (run ops) n req).2 n = .ok ds) :
    ∀ d ∈ ds, d.Name ≠ req.Name := by
  intro d hmem hname
  have hrun : (Node.Remove (run ops) n req).2 = run (ops ++ [Op.remove n req]) := by
    simp [run, List.foldl_append, step]
  have hops2 : ∀ o ∈ ops ++ [Op.remove n req], o.plainName := by
    intro o ho
    simp only [List.mem_append, List.mem_singleton] at ho
    rcases ho with ho | ho
    · exact hops o ho
    · subst ho; trivial
  obtain ⟨_, h2, h3, _⟩ := remove_frame (run ops) n nd req hn hd
  have hn2 : (run (ops ++ [Op.remove n req])).heap[n]? = some nd := by
    rw [← hrun, h2]; exact hn
  rw [hrun] at hds
  obtain ⟨p, e, hm, _, _, _, hpath⟩ :=
    listing_sound_run (ops ++ [Op.remove n req]) hops2 n nd hn2 hd ds hds d hmem
  have hp := ((run_invariants ops hops).2 nd (mem_heap hn)).1
  rw [path_plain _ _ hp hq, hrun, ← hname, ← hpath] at h3
  exact first_ne_none_of_mem hm h3

/-- Scenario A of the specification: after `Mkdir(root, "top")`, `Create(top, "a.txt")` and
a `Write` of "hello", the `Read` returns "hello", `Size` is 5 and the listing of `/top` is
the one entry "a.txt". -/
theorem scenario_A :
    Node.Read wHello 2 ⟨0, 4096⟩ ⟨[]⟩ = .ok ⟨hello⟩ ∧
    (wHello.heap[2]?).map Node.Size = some 5 ∧
    Node.ReadDirAll wHello 1 = .ok [⟨MDBFS.newUniqueID "/top/a.txt", DT_Unknown, "a.txt"⟩] ∧
    Node.ReadDirAll wFile 1 = .ok [⟨MDBFS.newUniqueID "/top/a.txt", DT_Unknown, "a.txt"⟩] := by
  decide

/-! ## More invariants of the runs -/

theorem mem_set_of_ne {l : List Node} {n : Nat} {a b : Node} (x : Node) (ha : a ∈ l)
    (hb : l[n]? = some b) (hne : a ≠ b) : a ∈ l.set n x := by
  obtain ⟨i, hi⟩ := List.mem_iff_getElem?.mp ha
  have hin : n ≠ i := by
    intro h
    subst h
    rw [hb] at hi
    exact hne (Option.some.inj hi).symm
  exact List.getElem?_mem (by rw [List.getElem?_set_ne hin]; exact hi)

theorem isDir_ne_regular {d nd : Node} (hd : d.isDir = true)
    (hr : FileMode.IsRegular nd.Mode = true) : d ≠ nd := by
  intro h
  subst h
  have := isRegular_of_isDir _ hd
  rw [hr] at this
  cases this

/-- The heap a handler leaves: the heap it got, or that heap with one more node, or that
heap with new `Data` and `Size` in one regular node. -/
theorem step_heap (w : World) (o : Op) :
    (step w o).heap = w.heap ∨
    (o = Op.root ∧ (step w o).heap = w.heap ++ [rootNode]) ∨
    (∃ n nd req, o = Op.mkdir n req ∧ w.heap[n]? = some nd ∧ nd.isDir = true ∧
      (step w o).heap = w.heap ++ [MDBFS.newDirNode nd.Path req.Name]) ∨
    (∃ n nd req, o = Op.create n req ∧ w.heap[n]? = some nd ∧ nd.isDir = true ∧
      (step w o).heap = w.heap ++ [MDBFS.newFileNode nd.Path req.Name]) ∨
    (∃ n nd req, o = Op.write n req ∧ w.heap[n]? = some nd ∧
      FileMode.IsRegular nd.Mode = true ∧
      (step w o).heap =
        w.heap.set n (Node.mk nd.Path nd.Name nd.ID nd.Mode nd.SymlinkTarget
          (req.Data.length % 2 ^ 64) req.Data)) := by
  cases o with
  | root => right; left; exact ⟨rfl, rfl⟩
  | mkdir n req =>
    simp only [step]
    cases hn : w.heap[n]? with
    | none => left; simp [Node.Mkdir, hn]
    | some nd =>
      by_cases hd : nd.isDir = true
      · by_cases h1 : FileMode.IsDir req.Mode = true
        · right; right; left
          exact ⟨n, nd, req, rfl, hn, hd, by rw [mkdir_eq req hn hd h1]⟩
        · left; simp [Node.Mkdir, hn, hd, h1]
      · left; simp [Node.Mkdir, hn, hd]
  | create n req =>
    simp only [step]
    cases hn : w.heap[n]? with
    | none => left; simp [Node.Create, hn]
    | some nd =>
      by_cases hd : nd.isDir = true
      · by_cases h1 : FileMode.IsDir req.Mode = true
        · left; simp [Node.Create, hn, hd, h1]
        · by_cases h2 : FileMode.IsRegular req.Mode = true
          · right; right; right; left
            exact ⟨n, nd, req, rfl, hn, hd,
              by rw [create_eq req hn hd (by simpa using h1) h2]⟩
          · left; simp [Node.Create, hn, hd, h1, h2]
      · left; simp [Node.Create, hn, hd]
  | write n req =>
    simp only [step]
    cases hn : w.heap[n]? with
    | none => left; simp [Node.Write, hn]
    | some nd =>
      by_cases hr : FileMode.IsRegular nd.Mode = true
      · by_cases hof : req.Offset < 0
        · left; simp [Node.Write, hn, hr, hof]
        · by_cases hB : req.Data.length = 0
          · left; simp [Node.Write, hn, hr, hof, hB]
          · right; right; right; right
            refine ⟨n, nd, req, rfl, hn, hr, ?_⟩
            by_cases hk : nd.Path = ""
            · simp [Node.Write, hn, hr, hof, hB, Txn.Insert, List.getElem?_set, heap_lt hn, hk]
            · rw [write_eq req ⟨0⟩ hn hr hk (fun hc => hB (by simp [hc])) (by omega)]
      · left; simp [Node.Write, hn, hr]
  | remove n req =>
    left
    simp only [step]
    rcases hn : w.heap[n]? with _ | nd
    · simp [Node.Remove, hn]
    · by_cases hd : nd.isDir = true
      · exact (remove_frame w n nd req hn hd).2.1
      · have hd2 : ¬ FileMode.IsDir nd.Mode = true := hd
        simp [Node.Remove, hn, hd2]

theorem Built_grow {w : World} {heap : List Node} (x : Node) (h : w.Built)
    (hh : heap = w.heap ++ [x])
    (hx : x.ID = MDBFS.newUniqueID x.Path ∧ x.SymlinkTarget = "" ∧
      ((x.Path = "" ∧ x.Mode = ModeDir ||| defaultDirPerms) ∨
       (∃ d ∈ w.heap, d.isDir = true ∧ x.Path = Sprintf (d.Path ++ "/" ++ x.Name) ∧
          (x.Mode = ModeDir ||| defaultDirPerms ∨ x.Mode = defaultFilePerms)))) :
    ∀ w2 : World, w2.heap = heap → w2.Built := by
  intro w2 h2 nd hnd
  rw [h2, hh] at hnd
  have key : ∀ y : Node, (y.ID = MDBFS.newUniqueID y.Path ∧ y.SymlinkTarget = "" ∧
      ((y.Path = "" ∧ y.Mode = ModeDir ||| defaultDirPerms) ∨
       (∃ d ∈ w.heap, d.isDir = true ∧ y.Path = Sprintf (d.Path ++ "/" ++ y.Name) ∧
          (y.Mode = ModeDir ||| defaultDirPerms ∨ y.Mode = defaultFilePerms)))) →
      (y.ID = MDBFS.newUniqueID y.Path ∧ y.SymlinkTarget = "" ∧
      ((y.Path = "" ∧ y.Mode = ModeDir ||| defaultDirPerms) ∨
       (∃ d ∈ w2.heap, d.isDir = true ∧ y.Path = Sprintf (d.Path ++ "/" ++ y.Name) ∧
          (y.Mode = ModeDir ||| defaultDirPerms ∨ y.Mode = defaultFilePerms)))) := by
    rintro y ⟨a, b, c⟩
    refine ⟨a, b, ?_⟩
    rcases c with c | ⟨d, hd, c⟩
    · exact Or.inl c
    · exact Or.inr ⟨d, by rw [h2, hh]; exact List.mem_append_left _ hd, c⟩
  simp only [List.mem_append, List.mem_singleton] at hnd
  rcases hnd with hnd | hnd
  · exact key nd (h nd hnd)
  · subst hnd
    exact key nd hx

/-- One call keeps `Built`. -/
theorem Built_step (w : World) (o : Op) (h : w.Built) : (step w o).Built := by
  rcases step_heap w o with h0 | ⟨_, h0⟩ | ⟨n, nd, req, _, hn, hd, h0⟩ |
      ⟨n, nd, req, _, hn, hd, h0⟩ | ⟨n, nd, req, _, hn, hr, h0⟩
  · intro x hx
    rw [h0] at hx
    obtain ⟨a, b, c⟩ := h x hx
    refine ⟨a, b, ?_⟩
    rcases c with c | ⟨d, hd, c⟩
    · exact Or.inl c
    · exact Or.inr ⟨d, by rw [h0]; exact hd, c⟩
  · exact Built_grow rootNode h rfl ⟨rfl, rfl, Or.inl ⟨rfl, rfl⟩⟩ _ h0
  · exact Built_grow _ h rfl
      ⟨rfl, rfl, Or.inr ⟨nd, mem_heap hn, hd, rfl, Or.inl rfl⟩⟩ _ h0
  · exact Built_grow _ h rfl
      ⟨rfl, rfl, Or.inr ⟨nd, mem_heap hn, hd, rfl, Or.inr rfl⟩⟩ _ h0
  · intro x hx
    rw [h0] at hx
    have keep : ∀ d ∈ w.heap, d.isDir = true → d ∈ (step w o).heap := by
      intro d hd hdir
      rw [h0]
      exact mem_set_of_ne _ hd hn (isDir_ne_regular hdir hr)
    have key : ∀ y ∈ w.heap, (y.ID = MDBFS.newUniqueID y.Path ∧ y.SymlinkTarget = "" ∧
        ((y.Path = "" ∧ y.Mode = ModeDir ||| defaultDirPerms) ∨
         (∃ d ∈ (step w o).heap, d.isDir = true ∧
            y.Path = Sprintf (d.Path ++ "/" ++ y.Name) ∧
            (y.Mode = ModeDir ||| defaultDirPerms ∨ y.Mode = defaultFilePerms)))) := by
      intro y hy
      obtain ⟨a, b, c⟩ := h y hy
      refine ⟨a, b, ?_⟩
      rcases c with c | ⟨d, hd, hdir, c⟩
      · exact Or.inl c
      · exact Or.inr ⟨d, keep d hd hdir, hdir, c⟩
    rcases List.mem_or_eq_of_mem_set hx with hx | hx
    · exact key x hx
    · subst hx
      exact key nd (mem_heap hn)

/-- One call with a payload in the range of `len` keeps `SizeOK`. -/
theorem SizeOK_step (w : World) (o : Op) (h : w.SizeOK) (ho : o.sized) : (step w o).SizeOK := by
  rcases step_heap w o with h0 | ⟨_, h0⟩ | ⟨n, nd, req, _, hn, hd, h0⟩ |
      ⟨n, nd, req, _, hn, hd, h0⟩ | ⟨n, nd, req, ho2, hn, hr, h0⟩
  · intro x hx
    rw [h0] at hx
    exact h x hx
  all_goals
    intro x hx
    rw [h0] at hx
  · simp only [List.mem_append, List.mem_singleton] at hx
    rcases hx with hx | hx
    · exact h x hx
    · subst hx; rfl
  · simp only [List.mem_append, List.mem_singleton] at hx
    rcases hx with hx | hx
    · exact h x hx
    · subst hx; rfl
  · simp only [List.mem_append, List.mem_singleton] at hx
    rcases hx with hx | hx
    · exact h x hx
    · subst hx; rfl
  · rcases List.mem_or_eq_of_mem_set hx with hx | hx
    · exact h x hx
    · subst hx ho2
      exact Nat.mod_eq_of_lt ho

theorem Sprintf_head_slash (s : String) (h : s.data.head? = some '/') :
    (Sprintf s).data.head? = some '/' := by
  obtain ⟨cs⟩ := s
  cases cs with
  | nil => simp at h
  | cons c t =>
    simp only [List.head?_cons, Option.some.injEq] at h
    subst h
    simp [Sprintf, doPrintf]

theorem child_head_slash (p name : String) (hp : p = "" ∨ p.data.head? = some '/') :
    (Sprintf (p ++ "/" ++ name)).data.head? = some '/' := by
  apply Sprintf_head_slash
  rcases hp with hp | hp
  · subst hp; simp
  · obtain ⟨cs⟩ := p
    cases cs with
    | nil => simp at hp
    | cons c t =>
      simp only [List.head?_cons, Option.some.injEq] at hp
      subst hp
      simp

/-- One call with a name without "/" keeps `Slashed`. -/
theorem Slashed_step (w : World) (o : Op) (h : w.Slashed) (ho : o.noSlash) :
    (step w o).Slashed := by
  rcases step_heap w o with h0 | ⟨_, h0⟩ | ⟨n, nd, req, ho2, hn, hd, h0⟩ |
      ⟨n, nd, req, ho2, hn, hd, h0⟩ | ⟨n, nd, req, _, hn, hr, h0⟩
  · intro x hx
    rw [h0] at hx
    exact h x hx
  all_goals
    intro x hx
    rw [h0] at hx
  · simp only [List.mem_append, List.mem_singleton] at hx
    rcases hx with hx | hx
    · exact h x hx
    · subst hx; exact Or.inl rfl
  · simp only [List.mem_append, List.mem_singleton] at hx
    rcases hx with hx | hx
    · exact h x hx
    · subst hx ho2
      right
      refine ⟨child_head_slash _ _ ?_, ho⟩
      rcases h nd (mem_heap hn) with h1 | h1
      · exact Or.inl h1
      · exact Or.inr h1.1
  · simp only [List.mem_append, List.mem_singleton] at hx
    rcases hx with hx | hx
    · exact h x hx
    · subst hx ho2
      right
      refine ⟨child_head_slash _ _ ?_, ho⟩
      rcases h nd (mem_heap hn) with h1 | h1
      · exact Or.inl h1
      · exact Or.inr h1.1
  · rcases List.mem_or_eq_of_mem_set hx with hx | hx
    · exact h x hx
    · subst hx
      exact h nd (mem_heap hn)

theorem foldl_invariant (P : World → Prop) (Q : Op → Prop)
    (hstep : ∀ w o, P w → Q o → P (step w o)) (ops : List Op) (hops : ∀ o ∈ ops, Q o) :
    ∀ w, P w → P (ops.foldl step w) := by
  induction ops with
  | nil => intro w h; exact h
  | cons o t ih =>
    intro w h
    exact ih (fun x hx => hops x (List.mem_cons_of_mem _ hx)) (step w o)
      (hstep w o h (hops o (by simp)))

/-- Every state reached from the empty store satisfies `Built`. -/
theorem run_Built (ops : List Op) : (run ops).Built :=
  foldl_invariant World.Built (fun _ => True) (fun w o h _ => Built_step w o h) ops
    (fun _ _ => trivial) World.empty (by intro nd hnd; cases hnd)

/-- Every state reached from the empty store is well formed. -/
theorem run_WF (ops : List Op) : (run ops).WF :=
  foldl_invariant World.WF (fun _ => True) (fun w o h _ => WF_step w o h) ops
    (fun _ _ => trivial) World.empty World.WF_empty

/-- Every state reached with payloads in the range of `len` satisfies `SizeOK`. -/
theorem run_SizeOK (ops : List Op) (hops : ∀ o ∈ ops, o.sized) : (run ops).SizeOK :=
  foldl_invariant World.SizeOK Op.sized SizeOK_step ops hops World.empty
    (by intro nd hnd; cases hnd)

/-- Every state reached with names without "/" satisfies `Slashed`. -/
theorem run_Slashed (ops : List Op) (hops : ∀ o ∈ ops, o.noSlash) : (run ops).Slashed :=
  foldl_invariant World.Slashed Op.noSlash Slashed_step ops hops World.empty
    (by intro nd hnd; cases hnd)

theorem run_opsHello : run opsHello = wHello := by decide

/-- A regular node of a run has a non-empty `Path`. -/
theorem run_regular_path (ops : List Op) (n : Nat) (nd : Node)
    (hn : (run ops).heap[n]? = some nd) (hreg : nd.isRegular = true) : nd.Path ≠ "" := by
  obtain ⟨_, _, h⟩ := run_Built ops nd (mem_heap hn)
  rcases h with ⟨_, hm⟩ | ⟨d, _, _, hp, _⟩
  · exfalso
    have : nd.isRegular = false := by
      unfold Node.isRegular
      rw [hm]
      decide
    rw [hreg] at this
    cases this
  · rw [hp]
    exact path_ne_empty _ _

theorem run_snoc (ops : List Op) (o : Op) : run (ops ++ [o]) = step (run ops) o := by
  simp [run, List.foldl_append]

/-- The pointer of a record is allocated. -/
theorem record_allocated {w : World} (hwf : w.WF) {k : String} {p : Nat} (h : (k, p) ∈ w.db) :
    ∃ nd, w.heap[p]? = some nd ∧ nd.Path = k := by
  have := (hwf.1 _ h).2
  cases hq : w.heap[p]? with
  | none => simp [hq] at this
  | some nd => exact ⟨nd, rfl, by simpa [hq] using this⟩

/-- The pointer `Lookup` returns is allocated and is the record at the key looked up. -/
theorem lookup_ok_inv {w : World} {n p : Nat} {name : String}
    (h : Node.Lookup w n name = .ok p) :
    ∃ nd r, w.heap[n]? = some nd ∧ w.heap[p]? = some r ∧
      Txn.First w (Sprintf (nd.Path ++ "/" ++ name)) = some p ∧ r.ID ≠ nd.ID := by
  unfold Node.Lookup at h
  cases hn : w.heap[n]? with
  | none => simp [hn] at h
  | some nd =>
    simp only [hn] at h
    by_cases hd : nd.isDir = true
    · simp only [hd, Bool.not_true, Bool.false_eq_true, if_false] at h
      unfold MDBFS.lookup at h
      simp only [hn] at h
      cases hf : Txn.First w (Sprintf (nd.Path ++ "/" ++ name)) with
      | none => simp [hf] at h
      | some raw =>
        simp only [hf] at h
        cases hr : w.heap[raw]? with
        | none => simp [hr] at h
        | some r =>
          simp only [hr] at h
          by_cases hid : r.ID = nd.ID
          · simp [hid] at h
          · simp only [hid, if_false] at h
            cases h
            exact ⟨nd, r, rfl, hr, hf, hid⟩
    · simp [hd] at h

/-- `Read` with an offset that is not negative and a length that is not zero, on a regular
node whose `Path` is the key of a record: the `Data` of the node of that record. -/
theorem read_of_record {w : World} {n p : Nat} {nd r : Node} (req : ReadRequest)
    (resp : ReadResponse) (hn : w.heap[n]? = some nd) (hreg : nd.isRegular = true)
    (ho : 0 ≤ req.Offset) (hs : req.Size ≠ 0) (hf : Txn.First w nd.Path = some p)
    (hr : w.heap[p]? = some r) :
    Node.Read w n req resp = .ok ⟨r.Data⟩ := by
  have hreg2 : FileMode.IsRegular nd.Mode = true := hreg
  have ho2 : ¬ req.Offset < 0 := by omega
  simp [Node.Read, hn, hreg2, ho2, hs, hf, hr]

/-- `Read` with an offset that is not negative and the length zero, on a regular node: the
response as it was passed in. -/
theorem read_zero {w : World} {n : Nat} {nd : Node} (req : ReadRequest)
    (resp : ReadResponse) (hn : w.heap[n]? = some nd) (hreg : nd.isRegular = true)
    (ho : 0 ≤ req.Offset) (hs : req.Size = 0) :
    Node.Read w n req resp = .ok resp := by
  have hreg2 : FileMode.IsRegular nd.Mode = true := hreg
  have ho2 : ¬ req.Offset < 0 := by omega
  simp [Node.Read, hn, hreg2, ho2, hs]

/-- `Write` changes no `Path`, `Name`, `ID`, `Mode` or symlink target of any node. -/
theorem write_identity (w : World) (n : Nat) (req : WriteRequest) (resp : WriteResponse)
    (p : Nat) :
    ((Node.Write w n req resp).2.heap[p]?).map
        (fun x => (x.Path, x.Name, x.ID, x.Mode, x.SymlinkTarget)) =
      (w.heap[p]?).map (fun x => (x.Path, x.Name, x.ID, x.Mode, x.SymlinkTarget)) := by
  have hresp : (Node.Write w n req resp).2 = (Node.Write w n req ⟨0⟩).2 := by
    unfold Node.Write
    repeat' split
    all_goals rfl
  rw [hresp]
  rcases step_heap w (Op.write n req) with h0 | ⟨h, _⟩ | ⟨_, _, _, h, _⟩ | ⟨_, _, _, h, _⟩ |
      ⟨m, nd, r, h, hn, _, h0⟩
  · simp only [step] at h0
    rw [h0]
  · cases h
  · cases h
  · cases h
  · cases h
    simp only [step] at h0
    rw [h0]
    by_cases hp : n = p
    · subst hp
      simp [List.getElem?_set, heap_lt hn, hn]
    · rw [List.getElem?_set_ne hp]

/-- In a run whose names have no percent sign, every record is stored under the `Path` of
its node, the node's `ID` is the hash of its `Path`, and its `Path` is the `Path` of an
allocated directory node, "/" and its `Name`. -/
theorem record_invariant_run (ops : List Op) (hops : ∀ o ∈ ops, o.plainName) (k : String)
    (p : Nat) (hk : (k, p) ∈ (run ops).db) :
    ∃ r, (run ops).heap[p]? = some r ∧ r.Path = k ∧ r.ID = MDBFS.newUniqueID r.Path ∧
      ∃ d ∈ (run ops).heap, d.isDir = true ∧ r.Path = d.Path ++ "/" ++ r.Name := by
  obtain ⟨r, hr, hrk⟩ := record_allocated (run_WF ops) hk
  obtain ⟨hid, _, hb⟩ := run_Built ops r (mem_heap hr)
  have hpl := (run_invariants ops hops).2
  refine ⟨r, hr, hrk, hid, ?_⟩
  have hne : r.Path ≠ "" := by rw [hrk]; exact ((run_WF ops).1 _ hk).1
  rcases hb with ⟨h0, _⟩ | ⟨d, hd, hdir, hp, _⟩
  · exact absurd h0 hne
  · refine ⟨d, hd, hdir, ?_⟩
    obtain ⟨hr1, hr2⟩ := hpl r (mem_heap hr)
    have hname : '%' ∉ r.Name.data := by
      rcases hr2 with h0 | ⟨q, hq⟩
      · exact absurd h0 hne
      · intro hc
        apply hr1
        rw [hq]
        simp only [String.data_append, List.mem_append]
        exact Or.inr hc
    rw [hp]
    exact path_plain _ _ (hpl d hd).1 hname

/-! ## Names in a listing -/

/-- When the characters start with "/" and the name has no "/", the name can be what is
left of the characters only when the occurrence cut out is at their start. -/
theorem replaceFirst_eq_name (old s name : List Char) (hs : s.head? = some '/')
    (hname : '/' ∉ name) (h : replaceFirst old [] s = name) : s = old ++ name := by
  rcases replaceFirst_cases old s with h0 | ⟨u, v, h1, h2⟩
  · exfalso
    rw [h] at h0
    rw [← h0] at hs
    exact hname (List.mem_of_mem_head? hs)
  · rw [h] at h2
    cases u with
    | nil =>
      simp only [List.nil_append] at h1 h2
      rw [h1, h2]
    | cons c u2 =>
      exfalso
      rw [h1] at hs
      simp only [List.cons_append, List.head?_cons, Option.some.injEq] at hs
      subst hs
      apply hname
      rw [h2]
      simp

/-- In a well-formed store whose nodes are `Slashed`, a record that the listing of `nd`
keeps has the key `Sprintf(nd.Path + "/")` followed by the name listed. -/
theorem listEntry_key {w : World} (hwf : w.WF) (hsl : w.Slashed) (nd : Node)
    {e : String × Nat} (he : e ∈ w.db) {d : Dirent} (hd : MDBFS.listEntry w nd e.2 = some d) :
    e.1.data = (Sprintf (nd.Path ++ "/")).data ++ d.Name.data := by
  obtain ⟨r, hr, hrk⟩ := record_allocated hwf he
  simp only [MDBFS.listEntry, hr] at hd
  by_cases hc : (Replace1 r.Path (Sprintf (nd.Path ++ "/")) "" != r.Name) = true
  · simp [hc] at hd
  · simp only [hc, Bool.false_eq_true, if_false, Option.some.injEq] at hd
    subst hd
    have hrep : Replace1 r.Path (Sprintf (nd.Path ++ "/")) "" = r.Name := by simpa using hc
    have hrd : replaceFirst (Sprintf (nd.Path ++ "/")).data [] r.Path.data = r.Name.data := by
      have := congrArg String.data hrep
      simpa [Replace1] using this
    have hne : r.Path ≠ "" := by rw [hrk]; exact (hwf.1 _ he).1
    rcases hsl r (mem_heap hr) with h0 | ⟨h1, h2⟩
    · exact absurd h0 hne
    · rw [← hrk]
      exact replaceFirst_eq_name _ _ _ h1 h2 hrd

theorem names_nodup_aux {w : World} (hwf : w.WF) (hsl : w.Slashed) (nd : Node) :
    ∀ E : List (String × Nat), (∀ e ∈ E, e ∈ w.db) → (E.map Prod.fst).Nodup →
      ((E.filterMap (fun e => MDBFS.listEntry w nd e.2)).map Dirent.Name).Nodup := by
  intro E
  induction E with
  | nil => intro _ _; simp
  | cons e t ih =>
    intro hmem hnd
    simp only [List.map_cons, List.nodup_cons] at hnd
    have iht := ih (fun x hx => hmem x (List.mem_cons_of_mem _ hx)) hnd.2
    cases hd : MDBFS.listEntry w nd e.2 with
    | none => simpa [List.filterMap_cons, hd] using iht
    | some d =>
      simp only [List.filterMap_cons, hd, List.map_cons, List.nodup_cons]
      refine ⟨?_, iht⟩
      intro hc
      simp only [List.mem_map, List.mem_filterMap] at hc
      obtain ⟨d2, ⟨e2, he2, hd2⟩, hname⟩ := hc
      have k1 := listEntry_key hwf hsl nd (hmem e (by simp)) hd
      have k2 := listEntry_key hwf hsl nd (hmem e2 (List.mem_cons_of_mem _ he2)) hd2
      have hk : e2.1 = e.1 := by
        apply String.ext
        rw [k1, k2, hname]
      exact hnd.1 (List.mem_map.mpr ⟨e2, he2, hk⟩)

/-- In a well-formed store whose nodes are `Slashed`, the names in the listing of a
directory are pairwise distinct. -/
theorem names_nodup {w : World} (hwf : w.WF) (hsl : w.Slashed) (n : Nat) (nd : Node)
    (hn : w.heap[n]? = some nd) (hd : nd.isDir = true) (ds : List Dirent)
    (hds : Node.ReadDirAll w n = .ok ds) : (ds.map Dirent.Name).Nodup := by
  rw [readDirAll_eq w n nd hwf hn hd] at hds
  cases hds
  unfold Txn.GetPrefix
  rw [List.filterMap_map]
  have hperm := List.perm_insertionSort keyLE
    (w.db.filter (fun e => nd.Path.data.isPrefixOf e.1.data))
  apply names_nodup_aux hwf hsl nd
  · intro e he
    exact (List.mem_filter.mp (hperm.mem_iff.mp he)).1
  · rw [(hperm.map Prod.fst).nodup_iff]
    exact List.Nodup.sublist ((List.filter_sublist w.db).map Prod.fst) hwf.2

/-! ## The hash -/

theorem foldl_fnvStep (bs : List Nat) : ∀ h, bs.foldl fnvStep h = fnv1Spec h bs := by
  induction bs with
  | nil => intro h; rfl
  | cons b t ih => intro h; exact ih _

theorem utf8Bytes_lt (c : Char) : ∀ b ∈ utf8Bytes c, b < 256 := by
  have hv : c.toNat < 0x110000 := by
    have := c.valid
    simp only [Char.toNat]
    rcases this with h | ⟨_, h⟩
    · exact Nat.lt_trans h (by decide)
    · exact h
  intro b hb
  unfold utf8Bytes at hb
  simp only at hb
  split at hb
  · simp only [List.mem_singleton] at hb
    omega
  · split at hb
    · simp only [List.mem_cons, List.mem_singleton, List.not_mem_nil, or_false] at hb
      omega
    · split at hb
      · simp only [List.mem_cons, List.mem_singleton, List.not_mem_nil, or_false] at hb
        omega
      · simp only [List.mem_cons, List.mem_singleton, List.not_mem_nil, or_false] at hb
        omega

theorem bytesOf_lt (s : String) : ∀ b ∈ bytesOf s, b < 256 := by
  intro b hb
  simp only [bytesOf, List.mem_flatMap] at hb
  obtain ⟨c, _, hc⟩ := hb
  exact utf8Bytes_lt c b hc

theorem fnv1Spec_lt (bs : List Nat) (hbs : ∀ b ∈ bs, b < 256) :
    ∀ h, h < 2 ^ 64 → fnv1Spec h bs < 2 ^ 64 := by
  induction bs with
  | nil => intro h hh; exact hh
  | cons b t ih =>
    intro h _
    apply ih (fun x hx => hbs x (List.mem_cons_of_mem _ hx))
    apply Nat.xor_lt_two_pow
    · exact Nat.mod_lt _ (by decide)
    · exact Nat.lt_trans (hbs b (by simp)) (by decide)

/-! ## The bytes of a string: `utf8Bytes` against the encoder of the Lean core library -/

set_option maxRecDepth 4000 in
theorem or_cont : ∀ z < 64, z ||| 0x80 = 0x80 + z := by decide
set_option maxRecDepth 4000 in
theorem or_lead2 : ∀ z < 32, z ||| 0xC0 = 0xC0 + z := by decide
theorem or_lead3 : ∀ z < 16, z ||| 0xE0 = 0xE0 + z := by decide
theorem or_lead4 : ∀ z < 8, z ||| 0xF0 = 0xF0 + z := by decide

theorem toUInt8_toNat (v : UInt32) : (v.toUInt8).toNat = v.toNat % 256 := by
  simp [UInt32.toUInt8, UInt8.toNat, Nat.toUInt8, UInt8.ofNat]

theorem shr_toNat (v k : UInt32) (n : Nat) (hk : (UInt32.mod k 32).toBitVec.toNat = n) :
    (v >>> k).toNat = v.toNat / 2 ^ n := by
  show (UInt32.shiftRight v k).toNat = _
  simp [UInt32.shiftRight, UInt32.toNat, Nat.shiftRight_eq_div_pow, hk]

theorem land_toNat (a b : UInt8) : (a &&& b).toNat = a.toNat &&& b.toNat := by
  show (UInt8.land a b).toNat = _
  simp [UInt8.land, UInt8.toNat]

theorem lor_toNat (a b : UInt8) : (a ||| b).toNat = a.toNat ||| b.toNat := by
  show (UInt8.lor a b).toNat = _
  simp [UInt8.lor, UInt8.toNat]

/-- A continuation byte: the low six bits under the mark `0x80`. -/
theorem cont_byte (v : UInt32) : (v.toUInt8 &&& 0x3f ||| 0x80).toNat = 0x80 + v.toNat % 64 := by
  rw [lor_toNat, land_toNat, toUInt8_toNat]
  have h := Nat.and_pow_two_sub_one_eq_mod (v.toNat % 256) 6
  simp only [Nat.reducePow, Nat.reduceSub] at h
  show (v.toNat % 256 &&& 63) ||| 128 = _
  rw [h, or_cont _ (Nat.mod_lt _ (by decide))]
  omega

theorem lead_byte (v : UInt32) (m t : UInt8) (k : Nat) (hm : m.toNat = 2 ^ k - 1) (hk : k ≤ 8)
    (ht : ∀ z < 2 ^ k, z ||| t.toNat = t.toNat + z) :
    (v.toUInt8 &&& m ||| t).toNat = t.toNat + v.toNat % 2 ^ k := by
  rw [lor_toNat, land_toNat, toUInt8_toNat, hm, Nat.and_pow_two_sub_one_eq_mod,
    ht _ (Nat.mod_lt _ (Nat.two_pow_pos k))]
  congr 1
  have : (2:Nat) ^ k ∣ 256 := by
    have : (256 : Nat) = 2 ^ 8 := by norm_num
    rw [this]
    exact Nat.pow_dvd_pow 2 hk
  exact Nat.mod_mod_of_dvd _ this

/-- The bytes `utf8Bytes` gives for a character are those of `String.utf8EncodeChar`. -/
theorem utf8Bytes_eq (c : Char) : utf8Bytes c = (String.utf8EncodeChar c).map UInt8.toNat := by
  have hv : c.val.toNat < 0x110000 := by
    have := c.valid
    rcases this with h | ⟨_, h⟩
    · exact Nat.lt_trans h (by decide)
    · exact h
  have s6 := shr_toNat c.val 6 6 (by decide)
  have s12 := shr_toNat c.val 12 12 (by decide)
  have s18 := shr_toNat c.val 18 18 (by decide)
  have l1 : (c.val ≤ 0x7f) ↔ c.val.toNat < 0x80 := by
    rw [UInt32.le_def]; show c.val.toNat ≤ 127 ↔ _; omega
  have l2 : (c.val ≤ 0x7ff) ↔ c.val.toNat < 0x800 := by
    rw [UInt32.le_def]; show c.val.toNat ≤ 2047 ↔ _; omega
  have l3 : (c.val ≤ 0xffff) ↔ c.val.toNat < 0x10000 := by
    rw [UInt32.le_def]; show c.val.toNat ≤ 65535 ↔ _; omega
  unfold utf8Bytes String.utf8EncodeChar
  simp only [Char.toNat]
  by_cases h1 : c.val.toNat < 0x80
  · rw [if_pos h1, if_pos (l1.2 h1)]
    simp only [List.map_cons, List.map_nil, toUInt8_toNat]
    congr 1
    omega
  · rw [if_neg h1, if_neg (fun h => h1 (l1.1 h))]
    by_cases h2 : c.val.toNat < 0x800
    · rw [if_pos h2, if_pos (l2.2 h2)]
      simp only [List.map_cons, List.map_nil, cont_byte,
        lead_byte _ 0x1f 0xc0 5 (by decide) (by decide) or_lead2, s6]
      have e : (0xc0 : UInt8).toNat = 0xC0 := rfl
      rw [e]
      have : c.val.toNat / 2 ^ 6 % 2 ^ 5 = c.val.toNat / 64 := by omega
      rw [this]
    · rw [if_neg h2, if_neg (fun h => h2 (l2.1 h))]
      by_cases h3 : c.val.toNat < 0x10000
      · rw [if_pos h3, if_pos (l3.2 h3)]
        simp only [List.map_cons, List.map_nil, cont_byte,
          lead_byte _ 0x0f 0xe0 4 (by decide) (by decide) or_lead3, s6, s12]
        have e : (0xe0 : UInt8).toNat = 0xE0 := rfl
        rw [e]
        have : c.val.toNat / 2 ^ 12 % 2 ^ 4 = c.val.toNat / 4096 := by omega
        rw [this]
        rfl
      · rw [if_neg h3, if_neg (fun h => h3 (l3.1 h))]
        simp only [List.map_cons, List.map_nil, cont_byte,
          lead_byte _ 0x07 0xf0 3 (by decide) (by decide) or_lead4, s6, s12, s18]
        have e : (0xf0 : UInt8).toNat = 0xF0 := rfl
        rw [e]
        have : c.val.toNat / 2 ^ 18 % 2 ^ 3 = c.val.toNat / 262144 := by omega
        rw [this]
        rfl

/-- The bytes `bytesOf` gives for a string are its UTF-8 encoding `String.toUTF8`. -/
theorem bytesOf_eq (s : String) : bytesOf s = s.toUTF8.data.toList.map UInt8.toNat := by
  show s.data.flatMap utf8Bytes = (s.data.flatMap String.utf8EncodeChar).map UInt8.toNat
  rw [List.map_flatMap]
  congr 1
  funext c
  exact utf8Bytes_eq c

/-- There are as many bytes as the UTF-8 size of the string. -/
theorem bytesOf_length (s : String) : (bytesOf s).length = s.utf8ByteSize := by
  rw [bytesOf_eq, List.length_map, ← String.size_toUTF8]
  rfl

/-- A node of a run has the directory mode or the file mode, so it is a directory or a
regular file and not both, it is not a symlink, and it has no symlink target. -/
theorem run_modes (ops : List Op) (nd : Node) (h : nd ∈ (run ops).heap) :
    (nd.Mode = ModeDir ||| defaultDirPerms ∨ nd.Mode = defaultFilePerms) ∧
    ((nd.isDir = true ∧ nd.isRegular = false) ∨ (nd.isDir = false ∧ nd.isRegular = true)) ∧
    nd.isSymlink = false ∧ nd.SymlinkTarget = "" := by
  obtain ⟨_, hs, hb⟩ := run_Built ops nd h
  have hm : nd.Mode = ModeDir ||| defaultDirPerms ∨ nd.Mode = defaultFilePerms := by
    rcases hb with ⟨_, hm⟩ | ⟨_, _, _, _, hm⟩
    · exact Or.inl hm
    · exact hm
  refine ⟨hm, ?_, ?_, hs⟩
  · rcases hm with hm | hm
    · left
      unfold Node.isDir Node.isRegular
      rw [hm]
      decide
    · right
      unfold Node.isDir Node.isRegular
      rw [hm]
      decide
  · rcases hm with hm | hm
    · unfold Node.isSymlink
      rw [hm]
      decide
    · unfold Node.isSymlink
      rw [hm]
      decide

/-! ## The handlers on paths without a percent sign, step by step -/

theorem first_of_db {w w2 : World} (h : w.db = w2.db) (k : String) :
    Txn.First w k = Txn.First w2 k := by
  simp [Txn.First, h]

theorem write_state_resp (w : World) (n : Nat) (req : WriteRequest) (resp : WriteResponse) :
    (Node.Write w n req resp).2 = (Node.Write w n req ⟨0⟩).2 := by
  unfold Node.Write
  repeat' split
  all_goals rfl

/-- `Mkdir` under a directory, path and name without a percent sign: the pointer returned,
the heap and the records afterwards. -/
theorem mkdir_facts (w : World) (n : Nat) (nd : Node) (name : String) (mode : Nat)
    (hn : w.heap[n]? = some nd) (hd : nd.isDir = true) (hm : FileMode.IsDir mode = true)
    (hp : '%' ∉ nd.Path.data) (hq : '%' ∉ name.data) :
    (Node.Mkdir w n ⟨name, mode⟩).1 = .ok w.heap.length ∧
    (Node.Mkdir w n ⟨name, mode⟩).2.heap = w.heap ++ [Node.mk (nd.Path ++ "/" ++ name) name
      (MDBFS.newUniqueID (nd.Path ++ "/" ++ name)) (ModeDir ||| defaultDirPerms) "" 0 []] ∧
    Txn.First (Node.Mkdir w n ⟨name, mode⟩).2 (nd.Path ++ "/" ++ name) = some w.heap.length ∧
    ∀ k, k ≠ nd.Path ++ "/" ++ name →
      Txn.First (Node.Mkdir w n ⟨name, mode⟩).2 k = Txn.First w k := by
  have hs := path_plain nd.Path name hp hq
  obtain ⟨a, _, c, d, _⟩ := mkdir_upsert w n nd ⟨name, mode⟩ hn hd hm
  simp only [hs] at d
  refine ⟨a, ?_, ?_, d⟩
  · rw [mkdir_eq ⟨name, mode⟩ hn hd hm]
    simp [MDBFS.newDirNode, hs]
  · rw [mkdir_eq ⟨name, mode⟩ hn hd hm]
    simp [Txn.First, hs]

/-- `Create` under a directory, path and name without a percent sign: the pointer returned,
the heap and the records afterwards. -/
theorem create_facts (w : World) (n : Nat) (nd : Node) (name : String) (mode : Nat)
    (hn : w.heap[n]? = some nd) (hd : nd.isDir = true) (h1 : FileMode.IsDir mode = false)
    (h2 : FileMode.IsRegular mode = true)
    (hp : '%' ∉ nd.Path.data) (hq : '%' ∉ name.data) :
    (Node.Create w n ⟨name, mode⟩).1 = .ok (w.heap.length, w.heap.length) ∧
    (Node.Create w n ⟨name, mode⟩).2.heap = w.heap ++ [Node.mk (nd.Path ++ "/" ++ name) name
      (MDBFS.newUniqueID (nd.Path ++ "/" ++ name)) defaultFilePerms "" 0 []] ∧
    Txn.First (Node.Create w n ⟨name, mode⟩).2 (nd.Path ++ "/" ++ name) = some w.heap.length ∧
    ∀ k, k ≠ nd.Path ++ "/" ++ name →
      Txn.First (Node.Create w n ⟨name, mode⟩).2 k = Txn.First w k := by
  have hs := path_plain nd.Path name hp hq
  obtain ⟨a, _, c, d, _⟩ := create_upsert w n nd ⟨name, mode⟩ hn hd h1 h2
  simp only [hs] at d
  refine ⟨a, ?_, ?_, d⟩
  · rw [create_eq ⟨name, mode⟩ hn hd h1 h2]
    simp [MDBFS.newFileNode, hs]
  · rw [create_eq ⟨name, mode⟩ hn hd h1 h2]
    simp [Txn.First, hs]

/-- `Write` of a non-empty payload on a regular node with a non-empty `Path`: the response,
the heap and the records afterwards. -/
theorem write_facts (w : World) (f : Nat) (fn : Node) (B : List UInt8) (off : Int)
    (resp : WriteResponse) (hf : w.heap[f]? = some fn) (hreg : fn.isRegular = true)
    (hk : fn.Path ≠ "") (hB : B ≠ []) (ho : 0 ≤ off) :
    (Node.Write w f ⟨B, off⟩ resp).1 = .ok ⟨B.length⟩ ∧
    (Node.Write w f ⟨B, off⟩ resp).2.heap = w.heap.set f (Node.mk fn.Path fn.Name fn.ID fn.Mode
      fn.SymlinkTarget (B.length % 2 ^ 64) B) ∧
    Txn.First (Node.Write w f ⟨B, off⟩ resp).2 fn.Path = some f ∧
    ∀ k, k ≠ fn.Path → Txn.First (Node.Write w f ⟨B, off⟩ resp).2 k = Txn.First w k := by
  rw [write_eq ⟨B, off⟩ resp hf hreg hk hB ho]
  refine ⟨rfl, rfl, by simp [Txn.First], fun k hne => ?_⟩
  have := first_insert_other w fn.Path k f hne
  rw [← this]
  exact first_of_db rfl k

/-- `Remove` under a directory, path and name without a percent sign. -/
theorem remove_facts (w : World) (n : Nat) (nd : Node) (name : String) (dir : Bool)
    (hn : w.heap[n]? = some nd) (hd : nd.isDir = true)
    (hp : '%' ∉ nd.Path.data) (hq : '%' ∉ name.data) :
    (Node.Remove w n ⟨name, dir⟩).1 = .ok () ∧
    (Node.Remove w n ⟨name, dir⟩).2.heap = w.heap ∧
    Txn.First (Node.Remove w n ⟨name, dir⟩).2 (nd.Path ++ "/" ++ name) = none ∧
    ∀ k, k ≠ nd.Path ++ "/" ++ name →
      Txn.First (Node.Remove w n ⟨name, dir⟩).2 k = Txn.First w k := by
  have hs := path_plain nd.Path name hp hq
  have := remove_frame w n nd ⟨name, dir⟩ hn hd
  simp only [hs] at this
  exact this

theorem append_ne_longer (p a b : String) : p ++ "/" ++ b ≠ p ++ "/" ++ a ++ "/" ++ b := by
  intro h
  have h2 := congrArg String.length h
  simp only [String.length_append] at h2
  have h3 : "/".length = 1 := rfl
  omega

/-! ## The claims -/

/-- C1 (amended): a non-empty payload written to a regular file whose record is in the
store is read back whole, whatever the two offsets and the requested length, and the
node's `Size` is the length of the payload. -/
theorem C1_write_then_read (w : World) (n : Nat) (nd : Node) (B : List UInt8)
    (woff roff rlen : Int) (wresp : WriteResponse) (rresp : ReadResponse)
    (hwf : w.WF) (hn : w.heap[n]? = some nd) (hreg : nd.isRegular = true)
    (hrec : Txn.First w nd.Path = some n)
    (hB : B ≠ []) (hlen : B.length < 2 ^ 64)
    (hwo : 0 ≤ woff) (hro : 0 ≤ roff) (hrl : 0 < rlen) :
    (Node.Write w n ⟨B, woff⟩ wresp).1 = .ok ⟨B.length⟩ ∧
    Node.Read (Node.Write w n ⟨B, woff⟩ wresp).2 n ⟨roff, rlen⟩ rresp = .ok ⟨B⟩ ∧
    ((Node.Write w n ⟨B, woff⟩ wresp).2.heap[n]?).map Node.Size = some B.length := by
  have hk : nd.Path ≠ "" := (hwf.1 _ (first_eq_some_mem hrec)).1
  have hlt : n < w.heap.length := by
    by_contra hc
    rw [List.getElem?_eq_none (by omega)] at hn
    cases hn
  have hreg2 : FileMode.IsRegular nd.Mode = true := hreg
  have ho2 : ¬ roff < 0 := by omega
  have hs2 : ¬ rlen = 0 := by omega
  rw [write_eq ⟨B, woff⟩ wresp hn hreg hk hB hwo]
  refine ⟨rfl, ?_, ?_⟩
  · simp [Node.Read, List.getElem?_set, hlt, hreg2, ho2, hs2, Txn.First]
  · have hlen2 : B.length < 18446744073709551616 := by simpa using hlen
    simp [List.getElem?_set, hlt, Nat.mod_eq_of_lt hlen2]

/-- C1 (witness): the round trip at `/top/a.txt` of the example state, payload "hello". -/
theorem C1_write_then_read_witness :
    wFile.WF ∧ wFile.heap[2]? = some (MDBFS.newFileNode "/top" "a.txt") ∧
    (MDBFS.newFileNode "/top" "a.txt").isRegular = true ∧
    Txn.First wFile (MDBFS.newFileNode "/top" "a.txt").Path = some 2 ∧
    ((Node.Write wFile 2 ⟨hello, 7⟩ ⟨0⟩).1 = .ok ⟨hello.length⟩ ∧
     Node.Read (Node.Write wFile 2 ⟨hello, 7⟩ ⟨0⟩).2 2 ⟨3, 4096⟩ ⟨[]⟩ = .ok ⟨hello⟩ ∧
     ((Node.Write wFile 2 ⟨hello, 7⟩ ⟨0⟩).2.heap[2]?).map Node.Size = some hello.length) :=
  ⟨by decide, by decide, by decide, by decide,
   C1_write_then_read wFile 2 (MDBFS.newFileNode "/top" "a.txt") hello 7 3 4096 ⟨0⟩ ⟨[]⟩
     (by decide) (by decide) (by decide) (by decide) (by decide) (by decide) (by decide)
     (by decide) (by decide)⟩

/-- C1 (counterexample): `/top/a.txt` holds "hello" and is in the store; a `Write` of the
empty payload succeeds and changes nothing, so the following `Read` returns "hello", not
the empty payload, and `Size` stays 5, not 0. -/
theorem C1_empty_payload_counterexample :
    wHello.WF ∧ (wHello.heap[2]?).map Node.isRegular = some true ∧
    Txn.First wHello "/top/a.txt" = some 2 ∧
    Node.Write wHello 2 ⟨[], 0⟩ ⟨0⟩ = (.ok ⟨0⟩, wHello) ∧
    Node.Read (Node.Write wHello 2 ⟨[], 0⟩ ⟨0⟩).2 2 ⟨0, 4096⟩ ⟨[]⟩ = .ok ⟨hello⟩ ∧
    Node.Read (Node.Write wHello 2 ⟨[], 0⟩ ⟨0⟩).2 2 ⟨0, 4096⟩ ⟨[]⟩ ≠ .ok ⟨[]⟩ ∧
    ((Node.Write wHello 2 ⟨[], 0⟩ ⟨0⟩).2.heap[2]?).map Node.Size = some 5 := by
  decide

/-- C2 (failing input): after `Mkdir(root, "%%")`, `Mkdir(root, "%%+")` and `Create` of "x"
in the second directory, the file is stored at `/%!/(MISSING)x`; the listing of the first
directory, whose `Path` is `/%`, returns the entry "x" of that record, the child of its
sibling, although no record has the path `/%/x`. -/
theorem C2_sibling_child_listed :
    (wPctSibling.heap[1]?).map Node.Path = some "/%" ∧
    (wPctSibling.heap[2]?).map Node.Path = some "/%+" ∧
    (wPctSibling.heap[3]?).map Node.Path = some "/%!/(MISSING)x" ∧
    Node.ReadDirAll wPctSibling 1 =
      .ok [⟨MDBFS.newUniqueID "/%!/(MISSING)x", DT_Unknown, "x"⟩] ∧
    Txn.First wPctSibling ("/%" ++ "/" ++ "x") = none := by
  decide

/-- C3 (failing input): after `Mkdir(root, "%%%%")`, `Mkdir` of "x" in it and
`Mkdir(root, "%%")`, the record of pointer 2 has the `Path` `/%/x` and the `Name` "x", the
directory of pointer 3 has the `Path` `/%`, and the listing of that directory is empty; so
is the listing of the directory of pointer 1, in which "x" was made. -/
theorem C3_percent_parent_listing_empty :
    (wPctOther.heap[3]?).map Node.Path = some "/%" ∧
    (wPctOther.heap[3]?).map Node.isDir = some true ∧
    (wPctOther.heap[2]?).map Node.Path = some ("/%" ++ "/" ++ "x") ∧
    (wPctOther.heap[2]?).map Node.Name = some "x" ∧
    Txn.First wPctOther ("/%" ++ "/" ++ "x") = some 2 ∧
    Node.ReadDirAll wPctOther 3 = .ok [] ∧
    Node.ReadDirAll wPctOther 1 = .ok [] := by
  decide

/-- Away from the failing input of C4: for a directory node and a name, both without a
percent sign, such that the hash of the new path is not the directory's `ID`, `Mkdir`
(directory mode) and `Create` (regular mode) succeed and the `Lookup` of the name in the
state they leave returns the pointer they returned; the node it points to has the path
`D.Path + "/" + name`, the name, and the hash of that path as its `ID`. -/
theorem lookup_after_create (w : World) (n : Nat) (nd : Node) (name : String) (mode : Nat)
    (hn : w.heap[n]? = some nd) (hd : nd.isDir = true)
    (hp : '%' ∉ nd.Path.data) (hq : '%' ∉ name.data)
    (hid : MDBFS.newUniqueID (nd.Path ++ "/" ++ name) ≠ nd.ID) :
    (FileMode.IsDir mode = true →
      (Node.Mkdir w n ⟨name, mode⟩).1 = .ok w.heap.length ∧
      Node.Lookup (Node.Mkdir w n ⟨name, mode⟩).2 n name = .ok w.heap.length ∧
      (Node.Mkdir w n ⟨name, mode⟩).2.heap[w.heap.length]? =
        some { Path := nd.Path ++ "/" ++ name, Name := name,
               ID := MDBFS.newUniqueID (nd.Path ++ "/" ++ name),
               Mode := ModeDir ||| defaultDirPerms, SymlinkTarget := "", Size := 0, Data := [] }) ∧
    (FileMode.IsDir mode = false → FileMode.IsRegular mode = true →
      (Node.Create w n ⟨name, mode⟩).1 = .ok (w.heap.length, w.heap.length) ∧
      Node.Lookup (Node.Create w n ⟨name, mode⟩).2 n name = .ok w.heap.length ∧
      (Node.Create w n ⟨name, mode⟩).2.heap[w.heap.length]? =
        some { Path := nd.Path ++ "/" ++ name, Name := name,
               ID := MDBFS.newUniqueID (nd.Path ++ "/" ++ name),
               Mode := defaultFilePerms, SymlinkTarget := "", Size := 0, Data := [] }) := by
  have hs := path_plain nd.Path name hp hq
  constructor
  · intro h1
    rw [mkdir_eq ⟨name, mode⟩ hn hd h1]
    refine ⟨rfl, ?_, ?_⟩
    · apply lookup_eq name (heap_append _ hn) hd (r := MDBFS.newDirNode nd.Path name)
      · simp [Txn.First]
      · simp
      · simpa [MDBFS.newDirNode, hs] using hid
    · simp [MDBFS.newDirNode, hs]
  · intro h1 h2
    rw [create_eq ⟨name, mode⟩ hn hd h1 h2]
    refine ⟨rfl, ?_, ?_⟩
    · apply lookup_eq name (heap_append _ hn) hd (r := MDBFS.newFileNode nd.Path name)
      · simp [Txn.First]
      · simp
      · simpa [MDBFS.newFileNode, hs] using hid
    · simp [MDBFS.newFileNode, hs]

/-- An instance of `lookup_after_create`: `Mkdir(root, "top")` and `Create(root, "top")` on
the state that holds only the root. -/
theorem lookup_after_create_top :
    wRoot.heap[0]? = some rootNode ∧
    MDBFS.newUniqueID ("" ++ "/" ++ "top") ≠ MDBFS.newUniqueID "" ∧
    Node.Lookup (Node.Mkdir wRoot 0 ⟨"top", dirMode⟩).2 0 "top" = .ok 1 ∧
    Node.Lookup (Node.Create wRoot 0 ⟨"top", defaultFilePerms⟩).2 0 "top" = .ok 1 :=
  ⟨by decide, by decide,
   ((lookup_after_create wRoot 0 rootNode "top" dirMode
      (by decide) (by decide) (by decide) (by decide) (by decide)).1 (by decide)).2.1,
   ((lookup_after_create wRoot 0 rootNode "top" defaultFilePerms
      (by decide) (by decide) (by decide) (by decide) (by decide)).2 (by decide)
      (by decide)).2.1⟩

/-- C4 (failing input): the path `/vKRBdIN0AZea` has the same FNV-1 hash as the empty
path of the root. `Create(root, "vKRBdIN0AZea")` on the state that holds only the root
succeeds and returns pointer 1; the node has the path, the name and the hash of the path
as its `ID`, the store has its record and the listing of the root shows the name; yet
`Lookup(root, "vKRBdIN0AZea")` meets the check `raw.ID == n.ID` of `lookup` and answers
ENOENT. The same holds after `Mkdir(root, "vKRBdIN0AZea")`. -/
theorem C4_same_hash_lookup_enoent :
    MDBFS.newUniqueID ("" ++ "/" ++ hashName) = MDBFS.newUniqueID "" ∧
    wRoot.heap[0]? = some rootNode ∧ rootNode.isDir = true ∧
    (Node.Create wRoot 0 ⟨hashName, defaultFilePerms⟩).1 = .ok (1, 1) ∧
    wHashFile.heap[1]? = some (Node.mk ("" ++ "/" ++ hashName) hashName
      (MDBFS.newUniqueID ("" ++ "/" ++ hashName)) defaultFilePerms "" 0 []) ∧
    Txn.First wHashFile ("" ++ "/" ++ hashName) = some 1 ∧
    (Node.ReadDirAll wHashFile 0).map (fun ds => ds.map Dirent.Name) = .ok [hashName] ∧
    Node.Lookup wHashFile 0 hashName = .error .ENOENT ∧
    (Node.Mkdir wRoot 0 ⟨hashName, dirMode⟩).1 = .ok 1 ∧
    wHashDir.heap[1]? = some (Node.mk ("" ++ "/" ++ hashName) hashName
      (MDBFS.newUniqueID ("" ++ "/" ++ hashName)) (ModeDir ||| defaultDirPerms) "" 0 []) ∧
    Txn.First wHashDir ("" ++ "/" ++ hashName) = some 1 ∧
    (Node.ReadDirAll wHashDir 0).map (fun ds => ds.map Dirent.Name) = .ok [hashName] ∧
    Node.Lookup wHashDir 0 hashName = .error .ENOENT := by
  decide

/-- C5 (failing input): after `Mkdir(root, "%d")` the store holds no record with the path
`/%+d`, and `Lookup(root, "%+d")` returns the directory "%d" instead of ENOENT. -/
theorem C5_lookup_alias_found :
    Txn.First wVerbDir ("" ++ "/" ++ "%+d") = none ∧
    Node.Lookup wVerbDir 0 "%+d" = .ok 1 ∧
    (wVerbDir.heap[1]?).map Node.Name = some "%d" := by
  decide

/-- C6 (failing input): after `Mkdir(root, "%d")`, `Remove(root, "%+d")` succeeds and
deletes the record of the directory "%d", whose path `/%!d(MISSING)` is not `/%+d`. -/
theorem C6_remove_alias_deletes_other :
    Txn.First wVerbDir "/%!d(MISSING)" = some 1 ∧
    (wVerbDir.heap[1]?).map Node.Name = some "%d" ∧
    "/%!d(MISSING)" ≠ "" ++ "/" ++ "%+d" ∧
    (Node.Remove wVerbDir 0 ⟨"%+d", false⟩).1 = .ok () ∧
    Txn.First (Node.Remove wVerbDir 0 ⟨"%+d", false⟩).2 "/%!d(MISSING)" = none := by
  decide

/-- C7 (failing input): the file "%d" holds "hello"; `Create(root, "%+d")` succeeds, leaves
no record at `/%+d`, and replaces the record at `/%!d(MISSING)`, the file "%d", by the new
empty node. -/
theorem C7_create_alias_replaces_other :
    Txn.First wVerbFile "/%!d(MISSING)" = some 1 ∧
    (wVerbFile.heap[1]?).map Node.Data = some hello ∧
    (Node.Create wVerbFile 0 ⟨"%+d", defaultFilePerms⟩).1 = .ok (2, 2) ∧
    Txn.First (Node.Create wVerbFile 0 ⟨"%+d", defaultFilePerms⟩).2 ("" ++ "/" ++ "%+d") = none ∧
    Txn.First (Node.Create wVerbFile 0 ⟨"%+d", defaultFilePerms⟩).2 "/%!d(MISSING)" = some 2 ∧
    ((Node.Create wVerbFile 0 ⟨"%+d", defaultFilePerms⟩).2.heap[2]?).map Node.Data = some [] := by
  decide

/-- C8 (failing input): `/top` exists; a second `Mkdir(root, "top")` returns a new node and
no error, and the record at `/top` is now that node. -/
theorem C8_mkdir_existing_succeeds :
    Txn.First wTop "/top" = some 1 ∧
    (Node.Mkdir wTop 0 ⟨"top", dirMode⟩).1 = .ok 2 ∧
    Txn.First (Node.Mkdir wTop 0 ⟨"top", dirMode⟩).2 "/top" = some 2 := by
  decide

/-- C9: `Create` on the node at `n` answers ENOTDIR when the node is not a directory,
whatever the mode asked for; else EISDIR when the mode has the directory bit; else EINVAL
when the mode is not regular; in these three cases the state returned is the state given.
Otherwise it succeeds, the node and the handle are the same new pointer, and that pointer
holds the file node built by `newFileNode` and is the record at the node's path. -/
theorem C9_create_error_mapping (w : World) (n : Nat) (nd : Node) (req : CreateRequest)
    (hn : w.heap[n]? = some nd) :
    (nd.isDir = false → Node.Create w n req = (.error .ENOTDIR, w)) ∧
    (nd.isDir = true → FileMode.IsDir req.Mode = true →
      Node.Create w n req = (.error .EISDIR, w)) ∧
    (nd.isDir = true → FileMode.IsDir req.Mode = false → FileMode.IsRegular req.Mode = false →
      Node.Create w n req = (.error .EINVAL, w)) ∧
    (nd.isDir = true → FileMode.IsDir req.Mode = false → FileMode.IsRegular req.Mode = true →
      (Node.Create w n req).1 = .ok (w.heap.length, w.heap.length) ∧
      (Node.Create w n req).2.heap[w.heap.length]? = some (MDBFS.newFileNode nd.Path req.Name) ∧
      Txn.First (Node.Create w n req).2 (MDBFS.newFileNode nd.Path req.Name).Path =
        some w.heap.length) := by
  refine ⟨?_, ?_, ?_, ?_⟩
  · intro hd
    simp [Node.Create, hn, hd]
  · intro hd h1
    simp [Node.Create, hn, hd, h1]
  · intro hd h1 h2
    simp [Node.Create, hn, hd, h1, h2]
  · intro hd h1 h2
    rw [create_eq req hn hd h1 h2]
    refine ⟨rfl, by simp, ?_⟩
    simp [Txn.First, MDBFS.newFileNode]

/-- C9 (witness): the four cases at the example state: under the file `/top/a.txt`, and
under the directory `/top` with a directory mode, a symlink mode and a regular mode. -/
theorem C9_create_error_mapping_witness :
    wFile.heap[2]? = some (MDBFS.newFileNode "/top" "a.txt") ∧
    wFile.heap[1]? = some (MDBFS.newDirNode "" "top") ∧
    Node.Create wFile 2 ⟨"b", dirMode⟩ = (.error .ENOTDIR, wFile) ∧
    Node.Create wFile 1 ⟨"b", dirMode⟩ = (.error .EISDIR, wFile) ∧
    Node.Create wFile 1 ⟨"b", ModeSymlink⟩ = (.error .EINVAL, wFile) ∧
    (Node.Create wFile 1 ⟨"b", defaultFilePerms⟩).1 = .ok (3, 3) :=
  ⟨by decide, by decide,
   (C9_create_error_mapping wFile 2 (MDBFS.newFileNode "/top" "a.txt") ⟨"b", dirMode⟩
      (by decide)).1 (by decide),
   (C9_create_error_mapping wFile 1 (MDBFS.newDirNode "" "top") ⟨"b", dirMode⟩
      (by decide)).2.1 (by decide) (by decide),
   (C9_create_error_mapping wFile 1 (MDBFS.newDirNode "" "top") ⟨"b", ModeSymlink⟩
      (by decide)).2.2.1 (by decide) (by decide) (by decide),
   ((C9_create_error_mapping wFile 1 (MDBFS.newDirNode "" "top") ⟨"b", defaultFilePerms⟩
      (by decide)).2.2.2 (by decide) (by decide) (by decide)).1⟩

/-- C10: on a node whose mode says directory and not symlink, `Read`, `Write` and
`Readlink` answer EINVAL for every request and in every state; `Write` returns the state
it was given, and `Read` and `Readlink` have no state to change. -/
theorem C10_type_guard (w : World) (n : Nat) (nd : Node) (rreq : ReadRequest)
    (rresp : ReadResponse) (wreq : WriteRequest) (wresp : WriteResponse)
    (hn : w.heap[n]? = some nd) (hd : nd.isDir = true) (hs : nd.isSymlink = false) :
    Node.Read w n rreq rresp = .error .EINVAL ∧
    Node.Write w n wreq wresp = (.error .EINVAL, w) ∧
    Node.Readlink w n = .error .EINVAL := by
  have hr : FileMode.IsRegular nd.Mode = false := isRegular_of_isDir _ hd
  refine ⟨?_, ?_, ?_⟩
  · simp [Node.Read, hn, hr]
  · simp [Node.Write, hn, hr]
  · simp [Node.Readlink, hn, hs]

/-- C10 (witness): the directory `/top` of the example state. -/
theorem C10_type_guard_witness :
    wHello.heap[1]? = some (MDBFS.newDirNode "" "top") ∧
    (MDBFS.newDirNode "" "top").isDir = true ∧ (MDBFS.newDirNode "" "top").isSymlink = false ∧
    (Node.Read wHello 1 ⟨0, 4096⟩ ⟨[]⟩ = .error .EINVAL ∧
     Node.Write wHello 1 ⟨hello, 0⟩ ⟨0⟩ = (.error .EINVAL, wHello) ∧
     Node.Readlink wHello 1 = .error .EINVAL) :=
  ⟨by decide, by decide, by decide,
   C10_type_guard wHello 1 (MDBFS.newDirNode "" "top") ⟨0, 4096⟩ ⟨[]⟩ ⟨hello, 0⟩ ⟨0⟩
     (by decide) (by decide) (by decide)⟩

/-- C11: on a regular node of any state reached from the empty store, `Write` with a
negative offset answers EINVAL, and `Write` with an offset that is not negative and an
empty payload succeeds; both return the state they were given (every node and every
record as before). With a non-empty payload and an offset that is not negative `Write`
succeeds and reports the full length of the payload. -/
theorem C11_write_validation (ops : List Op) (n : Nat) (nd : Node) (req : WriteRequest)
    (resp : WriteResponse) (hn : (run ops).heap[n]? = some nd) (hreg : nd.isRegular = true) :
    (req.Offset < 0 → Node.Write (run ops) n req resp = (.error .EINVAL, run ops)) ∧
    (0 ≤ req.Offset → req.Data = [] → Node.Write (run ops) n req resp = (.ok resp, run ops)) ∧
    (0 ≤ req.Offset → req.Data ≠ [] →
      (Node.Write (run ops) n req resp).1 = .ok ⟨req.Data.length⟩) := by
  have hr : FileMode.IsRegular nd.Mode = true := hreg
  refine ⟨fun ho => ?_, fun ho hB => ?_, fun ho hB => ?_⟩
  · simp [Node.Write, hn, hr, ho]
  · have ho2 : ¬ req.Offset < 0 := by omega
    simp [Node.Write, hn, hr, ho2, hB]
  · rw [write_eq req resp hn hreg (run_regular_path ops n nd hn hreg) hB ho]

/-- C11 (witness): the three cases at `/top/a.txt` of scenario A. -/
theorem C11_write_validation_witness :
    (run opsHello).heap[2]? = some (Node.mk "/top/a.txt" "a.txt"
      (MDBFS.newUniqueID "/top/a.txt") defaultFilePerms "" 5 hello) ∧
    Node.Write (run opsHello) 2 ⟨hello, -1⟩ ⟨0⟩ = (.error .EINVAL, run opsHello) ∧
    Node.Write (run opsHello) 2 ⟨[], 3⟩ ⟨0⟩ = (.ok ⟨0⟩, run opsHello) ∧
    (Node.Write (run opsHello) 2 ⟨[1, 2, 3], 3⟩ ⟨0⟩).1 = .ok ⟨3⟩ :=
  ⟨by decide,
   (C11_write_validation opsHello 2 (Node.mk "/top/a.txt" "a.txt"
      (MDBFS.newUniqueID "/top/a.txt") defaultFilePerms "" 5 hello) ⟨hello, -1⟩ ⟨0⟩
      (by decide) (by decide)).1 (by decide),
   (C11_write_validation opsHello 2 (Node.mk "/top/a.txt" "a.txt"
      (MDBFS.newUniqueID "/top/a.txt") defaultFilePerms "" 5 hello) ⟨[], 3⟩ ⟨0⟩
      (by decide) (by decide)).2.1 (by decide) rfl,
   (C11_write_validation opsHello 2 (Node.mk "/top/a.txt" "a.txt"
      (MDBFS.newUniqueID "/top/a.txt") defaultFilePerms "" 5 hello) ⟨[1, 2, 3], 3⟩ ⟨0⟩
      (by decide) (by decide)).2.2 (by decide) (by decide)⟩

/-- C12: in every state reached from the empty store (payloads in the range of Go's `len`),
every record points to a node with `Size = len(Data)`, and so does the pointer a successful
`Create` or `Lookup` returns. -/
theorem C12_size_invariant (ops : List Op) (hops : ∀ o ∈ ops, o.sized) :
    (∀ (k : String) (p : Nat), (k, p) ∈ (run ops).db →
      ∃ nd, (run ops).heap[p]? = some nd ∧ nd.Size = nd.Data.length) ∧
    (∀ (n : Nat) (req : CreateRequest) (p h : Nat),
      (Node.Create (run ops) n req).1 = .ok (p, h) →
      ∃ nd, (Node.Create (run ops) n req).2.heap[p]? = some nd ∧ nd.isRegular = true ∧
        nd.Size = nd.Data.length) ∧
    (∀ (n : Nat) (name : String) (p : Nat), Node.Lookup (run ops) n name = .ok p →
      ∃ nd, (run ops).heap[p]? = some nd ∧ nd.Size = nd.Data.length) := by
  have hs := run_SizeOK ops hops
  refine ⟨fun k p hk => ?_, fun n req p h hc => ?_, fun n name p hl => ?_⟩
  · obtain ⟨nd, hnd, _⟩ := record_allocated (run_WF ops) hk
    exact ⟨nd, hnd, hs nd (mem_heap hnd)⟩
  · cases hn : (run ops).heap[n]? with
    | none => simp [Node.Create, hn] at hc
    | some d =>
      by_cases hd : d.isDir = true
      · by_cases h1 : FileMode.IsDir req.Mode = true
        · simp [Node.Create, hn, hd, h1] at hc
        · by_cases h2 : FileMode.IsRegular req.Mode = true
          · rw [create_eq req hn hd (by simpa using h1) h2] at hc ⊢
            simp only [Except.ok.injEq, Prod.mk.injEq] at hc
            obtain ⟨hp, _⟩ := hc
            subst hp
            have hreg : (MDBFS.newFileNode d.Path req.Name).isRegular = true := by
              show FileMode.IsRegular defaultFilePerms = true
              decide
            exact ⟨MDBFS.newFileNode d.Path req.Name, by simp, hreg, rfl⟩
          · simp [Node.Create, hn, hd, h1, h2] at hc
      · simp [Node.Create, hn, hd] at hc
  · obtain ⟨_, r, _, hr, _, _⟩ := lookup_ok_inv hl
    exact ⟨r, hr, hs r (mem_heap hr)⟩

/-- C12 (witness): scenario A, where `/top/a.txt` holds the five bytes of "hello". -/
theorem C12_size_invariant_witness :
    (∀ o ∈ opsHello, o.sized) ∧
    (∃ nd, (run opsHello).heap[2]? = some nd ∧ nd.Size = nd.Data.length) :=
  ⟨by decide, (C12_size_invariant opsHello (by decide)).1 "/top/a.txt" 2 (by decide)⟩

/-- C13 (failing input): `Create(root, "a.txt")` returns the regular node of pointer 1, on
which `Read` succeeds; after `Remove(root, "a.txt")` the store has no record at `/a.txt`,
and `Read` (offset 0, length 4096) and `ReadAll` on that node end in the panic of
`raw.(*Node)` on a nil `raw`. -/
theorem C13_read_after_remove_panics :
    (Node.Create wRoot 0 ⟨"a.txt", defaultFilePerms⟩).1 = .ok (1, 1) ∧
    Node.Read (Node.Create wRoot 0 ⟨"a.txt", defaultFilePerms⟩).2 1 ⟨0, 4096⟩ ⟨[]⟩ = .ok ⟨[]⟩ ∧
    (wRemoved.heap[1]?).map Node.isRegular = some true ∧
    (wRemoved.heap[1]?).map Node.Path = some "/a.txt" ∧
    Txn.First wRemoved "/a.txt" = none ∧
    Node.Read wRemoved 1 ⟨0, 4096⟩ ⟨[]⟩ = .error .nilPanic ∧
    Node.ReadAll wRemoved 1 = .error .nilPanic := by
  decide

/-- C14 (amended): `Attr` succeeds on every node and for every attribute record passed in;
the result has the node's `ID` as `Inode` and the node's `Mode`; its `Size` is the node's
`Size` for a regular node, the byte length of the target for a symlink, and the `Size` of
the record passed in for any other node, so for a directory. -/
theorem C14_attr (w : World) (n : Nat) (nd : Node) (a : Attr) (hn : w.heap[n]? = some nd) :
    ∃ r, Node.Attr w n a = .ok r ∧ r.Inode = nd.ID ∧ r.Mode = nd.Mode ∧
      (nd.isRegular = true → r.Size = nd.Size) ∧
      (nd.isRegular = false → nd.isSymlink = true →
        nd.SymlinkTarget.utf8ByteSize < 2 ^ 64 → r.Size = nd.SymlinkTarget.utf8ByteSize) ∧
      (nd.isRegular = false → nd.isSymlink = false → r.Size = a.Size) := by
  by_cases hr : nd.isRegular = true
  · refine ⟨⟨nd.ID, nd.Size, nd.Mode⟩, by simp [Node.Attr, hn, hr], rfl, rfl, fun _ => rfl,
      fun h => ?_, fun h => ?_⟩
    · rw [hr] at h; cases h
    · rw [hr] at h; cases h
  · by_cases hs : nd.isSymlink = true
    · refine ⟨⟨nd.ID, nd.SymlinkTarget.utf8ByteSize % 2 ^ 64, nd.Mode⟩,
        by simp [Node.Attr, hn, hr, hs], rfl, rfl, fun h => absurd h hr,
        fun _ _ hlt => Nat.mod_eq_of_lt hlt, fun _ h => ?_⟩
      rw [hs] at h; cases h
    · exact ⟨⟨nd.ID, a.Size, nd.Mode⟩, by simp [Node.Attr, hn, hr, hs], rfl, rfl,
        fun h => absurd h hr, fun _ h => absurd h hs, fun _ _ => rfl⟩

/-- C14 (witness): the file `/top/a.txt` of scenario A, with an attribute record that is
not zeroed. -/
theorem C14_attr_witness :
    wHello.heap[2]? = some (Node.mk "/top/a.txt" "a.txt"
      (MDBFS.newUniqueID "/top/a.txt") defaultFilePerms "" 5 hello) ∧
    ∃ r, Node.Attr wHello 2 ⟨1, 9, 1⟩ = .ok r ∧ r.Inode = MDBFS.newUniqueID "/top/a.txt" ∧
      r.Mode = defaultFilePerms ∧ r.Size = 5 := by
  refine ⟨by decide, ?_⟩
  obtain ⟨r, h1, h2, h3, h4, _⟩ := C14_attr wHello 2 (Node.mk "/top/a.txt" "a.txt"
      (MDBFS.newUniqueID "/top/a.txt") defaultFilePerms "" 5 hello) ⟨1, 9, 1⟩ (by decide)
  exact ⟨r, h1, h2, h3, h4 (by decide)⟩

/-- C14 (counterexample): on the directory `/top`, `Attr` with a record whose `Size` is 7
succeeds and leaves `Size` at 7, not 0. -/
theorem C14_directory_size_counterexample :
    (wTop.heap[1]?).map Node.isDir = some true ∧
    (wTop.heap[1]?).map Node.isSymlink = some false ∧
    Node.Attr wTop 1 ⟨0, 7, 0⟩ = .ok ⟨MDBFS.newUniqueID "/top", 7, dirMode⟩ ∧
    Node.Attr wTop 1 ⟨0, 7, 0⟩ ≠ .ok ⟨MDBFS.newUniqueID "/top", 0, dirMode⟩ := by
  decide

/-- C15 (failing input): after `Mkdir(root, "%d")` the record of the directory is stored
under `/%!d(MISSING)`, which is its `Path`, and its `Name` is "%d": its `Path` is not the
root's `Path`, "/" and its `Name`. -/
theorem C15_percent_name_path :
    wVerbDir.db = [("/%!d(MISSING)", 1)] ∧
    (wVerbDir.heap[0]?).map Node.Path = some "" ∧
    (wVerbDir.heap[1]?).map Node.Path = some "/%!d(MISSING)" ∧
    (wVerbDir.heap[1]?).map Node.Name = some "%d" ∧
    "/%!d(MISSING)" ≠ "" ++ "/" ++ "%d" := by
  decide

/-- C16: in every state reached from the empty store with names that have no "/", the
entries the listing of a directory returns have pairwise distinct names. -/
theorem C16_distinct_names (ops : List Op) (hops : ∀ o ∈ ops, o.noSlash) (n : Nat) (nd : Node)
    (hn : (run ops).heap[n]? = some nd) (hd : nd.isDir = true) :
    ∃ ds, Node.ReadDirAll (run ops) n = .ok ds ∧ (ds.map Dirent.Name).Nodup := by
  refine ⟨_, readDirAll_eq (run ops) n nd (run_WF ops) hn hd, ?_⟩
  exact names_nodup (run_WF ops) (run_Slashed ops hops) n nd hn hd _
    (readDirAll_eq (run ops) n nd (run_WF ops) hn hd)



/-- C16 (witness): the name "a" is created twice under the root, then "b"; the listing of
the root has the two names "a" and "b", once each. -/
theorem C16_distinct_names_witness :
    (∀ o ∈ opsTwice, o.noSlash) ∧ (run opsTwice).heap[0]? = some rootNode ∧
    rootNode.isDir = true ∧
    (Node.ReadDirAll (run opsTwice) 0).map (fun ds => ds.map Dirent.Name) = .ok ["a", "b"] ∧
    ∃ ds, Node.ReadDirAll (run opsTwice) 0 = .ok ds ∧ (ds.map Dirent.Name).Nodup :=
  ⟨by decide, by decide, by decide, by decide,
   C16_distinct_names opsTwice (by decide) 0 rootNode (by decide) (by decide)⟩

/-- C17: `Root()` succeeds in every state and returns a new node with the empty `Path`, a
directory mode (`isDir` true, `isRegular` and `isSymlink` false) and the hash of the empty
path as its `ID`, which is 14695981039346656037; `newUniqueID(p)` is the 64-bit FNV-1 hash
of the bytes of `p` as the specification words it, a function of `p` below `2^64`. The
bytes of `p` are its UTF-8 encoding as the Lean core library computes it (`String.toUTF8`),
as many as `p.utf8ByteSize`; appending a string goes on hashing from the hash reached. The
hash has the published FNV-1 values on "a" and "foobar", and the bytes and hashes of paths
with characters of two, three and four bytes are those `[]byte(path)` gives in Go. -/
theorem C17_root_and_hash (w : World) (p q : String) :
    MDBFS.Root w = .ok (w.heap.length, { heap := w.heap ++ [rootNode], db := w.db }) ∧
    rootNode.Path = "" ∧ rootNode.isDir = true ∧ rootNode.isRegular = false ∧
    rootNode.isSymlink = false ∧ rootNode.ID = MDBFS.newUniqueID "" ∧
    rootNode.ID = 14695981039346656037 ∧
    MDBFS.newUniqueID p = fnv1Spec 14695981039346656037 (bytesOf p) ∧
    MDBFS.newUniqueID p < 2 ^ 64 ∧
    (p = q → MDBFS.newUniqueID p = MDBFS.newUniqueID q) ∧
    bytesOf p = p.toUTF8.data.toList.map UInt8.toNat ∧
    (bytesOf p).length = p.utf8ByteSize ∧
    MDBFS.newUniqueID p =
      fnv1Spec 14695981039346656037 (p.toUTF8.data.toList.map UInt8.toNat) ∧
    MDBFS.newUniqueID (p ++ q) =
      fnv1Spec (MDBFS.newUniqueID p) (q.toUTF8.data.toList.map UInt8.toNat) ∧
    MDBFS.newUniqueID "a" = 12638153115695167422 ∧
    MDBFS.newUniqueID "foobar" = 3750802935296928194 ∧
    MDBFS.newUniqueID "/top" = 16127725066647968041 ∧
    bytesOf "é" = [195, 169] ∧
    MDBFS.newUniqueID "é" = 590469663052932157 ∧
    bytesOf "/日本/😀" = [47, 230, 151, 165, 230, 156, 172, 47, 240, 159, 152, 128] ∧
    MDBFS.newUniqueID "/日本/😀" = 8802098595925840560 := by
  have hspec : MDBFS.newUniqueID p = fnv1Spec 14695981039346656037 (bytesOf p) :=
    foldl_fnvStep _ _
  have happ : MDBFS.newUniqueID (p ++ q) = fnv1Spec (MDBFS.newUniqueID p) (bytesOf q) := by
    unfold MDBFS.newUniqueID bytesOf
    rw [String.data_append, List.flatMap_append, List.foldl_append]
    exact foldl_fnvStep _ _
  refine ⟨rfl, rfl, by decide, by decide, by decide, rfl, by decide, hspec, ?_, ?_,
    bytesOf_eq p, bytesOf_length p, ?_, ?_, by decide, by decide, by decide, by decide,
    by decide, by decide, by decide⟩
  · rw [hspec]
    exact fnv1Spec_lt _ (bytesOf_lt p) _ (by decide)
  · intro h
    rw [h]
  · rw [← bytesOf_eq]
    exact hspec
  · rw [← bytesOf_eq]
    exact happ

/-- C18: in every state reached from the empty store, every allocated node (the roots and
every node `Mkdir`, `Create` or `Lookup` returned) has the mode `os.ModeDir|0775` or 0644,
is a directory or a regular file and not both, is not a symlink, has an empty symlink
target, and `Readlink` on it answers EINVAL; every record points to such a node. -/
theorem C18_no_symlink (ops : List Op) (n : Nat) (nd : Node)
    (hn : (run ops).heap[n]? = some nd) :
    (nd.Mode = ModeDir ||| defaultDirPerms ∨ nd.Mode = defaultFilePerms) ∧
    ((nd.isDir = true ∧ nd.isRegular = false) ∨ (nd.isDir = false ∧ nd.isRegular = true)) ∧
    nd.isSymlink = false ∧ nd.SymlinkTarget = "" ∧
    Node.Readlink (run ops) n = .error .EINVAL ∧
    (∀ (k : String) (p : Nat), (k, p) ∈ (run ops).db →
      ∃ r, (run ops).heap[p]? = some r ∧
        (r.Mode = ModeDir ||| defaultDirPerms ∨ r.Mode = defaultFilePerms) ∧
        ((r.isDir = true ∧ r.isRegular = false) ∨ (r.isDir = false ∧ r.isRegular = true)) ∧
        r.isSymlink = false ∧ r.SymlinkTarget = "") := by
  obtain ⟨h1, h2, h3, h4⟩ := run_modes ops nd (mem_heap hn)
  refine ⟨h1, h2, h3, h4, by simp [Node.Readlink, hn, h3], fun k p hk => ?_⟩
  obtain ⟨r, hr, _⟩ := record_allocated (run_WF ops) hk
  exact ⟨r, hr, run_modes ops r (mem_heap hr)⟩

/-- C18 (witness): the root, the directory and the file of scenario A. -/
theorem C18_no_symlink_witness :
    (run opsHello).heap[0]? = some rootNode ∧
    (run opsHello).heap[1]? = some (MDBFS.newDirNode "" "top") ∧
    Node.Readlink (run opsHello) 0 = .error .EINVAL ∧
    Node.Readlink (run opsHello) 1 = .error .EINVAL ∧
    (MDBFS.newDirNode "" "top").isSymlink = false :=
  ⟨by decide, by decide,
   (C18_no_symlink opsHello 0 rootNode (by decide)).2.2.2.2.1,
   (C18_no_symlink opsHello 1 (MDBFS.newDirNode "" "top") (by decide)).2.2.2.2.1,
   (C18_no_symlink opsHello 1 (MDBFS.newDirNode "" "top") (by decide)).2.2.1⟩

/-- C19 (amended): in a state reached from the empty store with names without a percent
sign, for a directory node `D` and names `d`, `c` without a percent sign such that the
hashes of `D/d/c` and `D/d` differ and `D` has no child named `c`: `Mkdir(D, d)`,
`Create(D/d, c)`, a `Write` of a non-empty payload to that file and `Remove(D, d)` as a
directory removal succeed; then `Lookup(D, d)` is ENOENT and the listing of `D` has no
entry named `d` or `c`; after a second `Mkdir(D, d)` the listing of the new node has the
entry of `c` and `Lookup` of `c` under it returns the old file node, whose `Data` is the
payload. -/
theorem C19_orphans_return (ops : List Op) (hops : ∀ o ∈ ops, o.plainName) (n : Nat)
    (nd : Node) (d c : String) (m1 m2 m3 : Nat) (B : List UInt8) (off : Int)
    (resp : WriteResponse) (w1 w2 w3 w4 w5 : World)
    (hn : (run ops).heap[n]? = some nd) (hd : nd.isDir = true)
    (hqd : '%' ∉ d.data) (hqc : '%' ∉ c.data)
    (hm1 : FileMode.IsDir m1 = true) (hm2 : FileMode.IsDir m2 = false)
    (hm2r : FileMode.IsRegular m2 = true) (hm3 : FileMode.IsDir m3 = true)
    (hB : B ≠ []) (hlen : B.length < 2 ^ 64) (ho : 0 ≤ off)
    (hid : MDBFS.newUniqueID (nd.Path ++ "/" ++ d ++ "/" ++ c) ≠
      MDBFS.newUniqueID (nd.Path ++ "/" ++ d))
    (hfresh : Txn.First (run ops) (nd.Path ++ "/" ++ c) = none)
    (e1 : w1 = (Node.Mkdir (run ops) n ⟨d, m1⟩).2)
    (e2 : w2 = (Node.Create w1 (run ops).heap.length ⟨c, m2⟩).2)
    (e3 : w3 = (Node.Write w2 ((run ops).heap.length + 1) ⟨B, off⟩ resp).2)
    (e4 : w4 = (Node.Remove w3 n ⟨d, true⟩).2)
    (e5 : w5 = (Node.Mkdir w4 n ⟨d, m3⟩).2) :
    (Node.Mkdir (run ops) n ⟨d, m1⟩).1 = .ok (run ops).heap.length ∧
    (Node.Create w1 (run ops).heap.length ⟨c, m2⟩).1 =
      .ok ((run ops).heap.length + 1, (run ops).heap.length + 1) ∧
    (Node.Write w2 ((run ops).heap.length + 1) ⟨B, off⟩ resp).1 = .ok ⟨B.length⟩ ∧
    (Node.Remove w3 n ⟨d, true⟩).1 = .ok () ∧
    Node.Lookup w4 n d = .error .ENOENT ∧
    (∃ ds, Node.ReadDirAll w4 n = .ok ds ∧ ∀ e ∈ ds, e.Name ≠ d ∧ e.Name ≠ c) ∧
    (Node.Mkdir w4 n ⟨d, m3⟩).1 = .ok ((run ops).heap.length + 2) ∧
    (∃ ds, Node.ReadDirAll w5 ((run ops).heap.length + 2) = .ok ds ∧
      (Dirent.mk (MDBFS.newUniqueID (nd.Path ++ "/" ++ d ++ "/" ++ c)) DT_Unknown c) ∈ ds) ∧
    Node.Lookup w5 ((run ops).heap.length + 2) c = .ok ((run ops).heap.length + 1) ∧
    w5.heap[(run ops).heap.length + 1]? = some (Node.mk (nd.Path ++ "/" ++ d ++ "/" ++ c) c
      (MDBFS.newUniqueID (nd.Path ++ "/" ++ d ++ "/" ++ c)) defaultFilePerms "" B.length B) := by
  have hp : '%' ∉ nd.Path.data := ((run_invariants ops hops).2 nd (mem_heap hn)).1
  have hPd : '%' ∉ (nd.Path ++ "/" ++ d).data := by
    simp only [String.data_append, List.mem_append, not_or]
    exact ⟨⟨hp, by decide⟩, hqd⟩
  have hlt : n < (run ops).heap.length := heap_lt hn
  have hlen2 : B.length % 2 ^ 64 = B.length := Nat.mod_eq_of_lt hlen
  -- the first Mkdir
  obtain ⟨a1, b1, c1, d1⟩ := mkdir_facts (run ops) n nd d m1 hn hd hm1 hp hqd
  rw [← e1] at b1 c1 d1
  have h1n : w1.heap[n]? = some nd := by rw [b1]; exact heap_append _ hn
  have h1L : w1.heap[(run ops).heap.length]? = some (Node.mk (nd.Path ++ "/" ++ d) d
      (MDBFS.newUniqueID (nd.Path ++ "/" ++ d)) (ModeDir ||| defaultDirPerms) "" 0 []) := by
    rw [b1]; simp
  have h1len : w1.heap.length = (run ops).heap.length + 1 := by rw [b1]; simp
  have hdirD : (Node.mk (nd.Path ++ "/" ++ d) d (MDBFS.newUniqueID (nd.Path ++ "/" ++ d))
      (ModeDir ||| defaultDirPerms) "" 0 []).isDir = true := by
    show FileMode.IsDir (ModeDir ||| defaultDirPerms) = true
    decide
  -- the Create
  obtain ⟨a2, b2, c2, d2⟩ := create_facts w1 (run ops).heap.length _ c m2 h1L hdirD hm2 hm2r
    hPd hqc
  rw [← e2] at b2 c2 d2
  dsimp only at b2 c2 d2
  rw [h1len] at a2 c2
  have h2n : w2.heap[n]? = some nd := by
    rw [b2, List.getElem?_append_left (by omega)]; exact h1n
  have h2f : w2.heap[(run ops).heap.length + 1]? = some (Node.mk
      (nd.Path ++ "/" ++ d ++ "/" ++ c) c (MDBFS.newUniqueID (nd.Path ++ "/" ++ d ++ "/" ++ c))
      defaultFilePerms "" 0 []) := by
    rw [b2, ← h1len]; simp
  have h2len : w2.heap.length = (run ops).heap.length + 2 := by rw [b2]; simp [h1len]
  have hregF : (Node.mk (nd.Path ++ "/" ++ d ++ "/" ++ c) c
      (MDBFS.newUniqueID (nd.Path ++ "/" ++ d ++ "/" ++ c)) defaultFilePerms "" 0 []).isRegular
      = true := by
    show FileMode.IsRegular defaultFilePerms = true
    decide
  have hkey : nd.Path ++ "/" ++ d ++ "/" ++ c ≠ "" := by
    intro h
    have h2 := congrArg String.length h
    simp only [String.length_append] at h2
    have h3 : "/".length = 1 := rfl
    have h4 : "".length = 0 := rfl
    omega
  -- the Write
  obtain ⟨a3, b3, c3, d3⟩ := write_facts w2 _ _ B off resp h2f hregF hkey hB ho
  rw [← e3] at b3 c3 d3
  simp only [hlen2] at b3
  have h3n : w3.heap[n]? = some nd := by
    rw [b3, List.getElem?_set_ne (by omega)]; exact h2n
  have h3f : w3.heap[(run ops).heap.length + 1]? = some (Node.mk
      (nd.Path ++ "/" ++ d ++ "/" ++ c) c (MDBFS.newUniqueID (nd.Path ++ "/" ++ d ++ "/" ++ c))
      defaultFilePerms "" B.length B) := by
    rw [b3]; simp [List.getElem?_set, h2len]
  have h3len : w3.heap.length = (run ops).heap.length + 2 := by rw [b3]; simp [h2len]
  -- the Remove
  obtain ⟨a4, b4, c4, d4⟩ := remove_facts w3 n nd d true h3n hd hp hqd
  rw [← e4] at b4 c4 d4
  have h4n : w4.heap[n]? = some nd := by rw [b4]; exact h3n
  have h4len : w4.heap.length = (run ops).heap.length + 2 := by rw [b4]; exact h3len
  have hne1 : nd.Path ++ "/" ++ d ++ "/" ++ c ≠ nd.Path ++ "/" ++ d := by
    intro h
    have h2 := congrArg String.length h
    simp only [String.length_append] at h2
    have h3 : "/".length = 1 := rfl
    omega
  have h4first : Txn.First w4 (nd.Path ++ "/" ++ d ++ "/" ++ c) =
      some ((run ops).heap.length + 1) := by
    rw [d4 _ hne1]; exact c3
  -- w4 is a state of a run
  have hrun4 : w4 = run (ops ++ [Op.mkdir n ⟨d, m1⟩, Op.create (run ops).heap.length ⟨c, m2⟩,
      Op.write ((run ops).heap.length + 1) ⟨B, off⟩, Op.remove n ⟨d, true⟩]) := by
    simp only [run, List.foldl_append, List.foldl_cons, List.foldl_nil, step]
    rw [e4, e3, e2, e1, write_state_resp]
    rfl
  have hops4 : ∀ o ∈ ops ++ [Op.mkdir n ⟨d, m1⟩, Op.create (run ops).heap.length ⟨c, m2⟩,
      Op.write ((run ops).heap.length + 1) ⟨B, off⟩, Op.remove n ⟨d, true⟩], o.plainName := by
    intro o ho
    simp only [List.mem_append, List.mem_cons, List.mem_singleton, List.not_mem_nil,
      or_false] at ho
    rcases ho with ho | ho | ho | ho | ho
    · exact hops o ho
    · subst ho; exact hqd
    · subst ho; exact hqc
    · subst ho; trivial
    · subst ho; trivial
  have hw4wf : w4.WF := by rw [hrun4]; exact run_WF _
  -- between the Remove and the second Mkdir
  have hlook4 : Node.Lookup w4 n d = .error .ENOENT := by
    rw [e4]; exact lookup_after_remove w3 n nd ⟨d, true⟩ h3n hd
  have hc4 : Txn.First w4 (nd.Path ++ "/" ++ c) = none := by
    by_cases hcd : c = d
    · rw [hcd]; exact c4
    · have hne : nd.Path ++ "/" ++ c ≠ nd.Path ++ "/" ++ d := by
        intro h
        apply hcd
        have := congrArg String.data h
        simp only [String.data_append, List.append_cancel_left_eq] at this
        exact String.ext this
      rw [d4 _ hne, d3 _ (append_ne_longer _ _ _), d2 _ (append_ne_longer _ _ _), d1 _ hne]
      exact hfresh
  have hlist4 : ∃ ds, Node.ReadDirAll w4 n = .ok ds ∧ ∀ e ∈ ds, e.Name ≠ d ∧ e.Name ≠ c := by
    refine ⟨_, readDirAll_eq w4 n nd hw4wf h4n hd, ?_⟩
    intro e he
    have hds := readDirAll_eq w4 n nd hw4wf h4n hd
    rw [hrun4] at hds h4n
    obtain ⟨p, r, hm, _, hname, _, hpath⟩ :=
      listing_sound_run _ hops4 n nd h4n hd _ hds e (by rw [← hrun4]; exact he)
    rw [← hrun4] at hm
    constructor
    · intro h
      rw [h] at hpath
      rw [hpath] at hm
      exact first_ne_none_of_mem hm c4
    · intro h
      rw [h] at hpath
      rw [hpath] at hm
      exact first_ne_none_of_mem hm hc4
  -- the second Mkdir
  obtain ⟨a5, b5, c5, d5⟩ := mkdir_facts w4 n nd d m3 h4n hd hm3 hp hqd
  rw [← e5] at b5 c5 d5
  rw [h4len] at a5
  have hw5wf : w5.WF := by rw [e5]; exact WF_Mkdir w4 n _ hw4wf
  have h5f : w5.heap[(run ops).heap.length + 1]? = some (Node.mk
      (nd.Path ++ "/" ++ d ++ "/" ++ c) c (MDBFS.newUniqueID (nd.Path ++ "/" ++ d ++ "/" ++ c))
      defaultFilePerms "" B.length B) := by
    rw [b5, List.getElem?_append_left (by omega), b4]; exact h3f
  have h5D : w5.heap[(run ops).heap.length + 2]? = some (Node.mk (nd.Path ++ "/" ++ d) d
      (MDBFS.newUniqueID (nd.Path ++ "/" ++ d)) (ModeDir ||| defaultDirPerms) "" 0 []) := by
    rw [b5, ← h4len]; simp
  have h5first : Txn.First w5 (nd.Path ++ "/" ++ d ++ "/" ++ c) =
      some ((run ops).heap.length + 1) := by
    rw [d5 _ hne1]; exact h4first
  refine ⟨a1, a2, a3, a4, hlook4, hlist4, a5, ?_, ?_, h5f⟩
  · exact listing_complete w5 _ _ _ _ hw5wf h5D hdirD hPd (first_eq_some_mem h5first) h5f rfl
  · exact lookup_eq c h5D hdirD
      (by rw [path_plain _ _ hPd hqc]; exact h5first) h5f hid

/-- C19 (witness): the root, the directory "top" and the file "a.txt" holding "hello". -/
theorem C19_orphans_return_witness :
    (∀ o ∈ [Op.root], o.plainName) ∧ (run [Op.root]).heap[0]? = some rootNode ∧
    MDBFS.newUniqueID ("" ++ "/" ++ "top" ++ "/" ++ "a.txt") ≠
      MDBFS.newUniqueID ("" ++ "/" ++ "top") ∧
    Txn.First (run [Op.root]) ("" ++ "/" ++ "a.txt") = none ∧
    Node.Lookup wOrphan 0 "top" = .error .ENOENT ∧
    Node.Lookup wReborn 3 "a.txt" = .ok 2 ∧
    (wReborn.heap[2]?).map Node.Data = some hello :=
  ⟨by decide, by decide, by decide, by decide,
   (C19_orphans_return [Op.root] (by decide) 0 rootNode "top" "a.txt" dirMode defaultFilePerms
      dirMode hello 0 ⟨0⟩ wTop wFile wHello wOrphan wReborn (by decide) (by decide) (by decide)
      (by decide) (by decide) (by decide) (by decide) (by decide) (by decide) (by decide)
      (by decide) (by decide) (by decide) rfl rfl rfl rfl rfl).2.2.2.2.1,
   (C19_orphans_return [Op.root] (by decide) 0 rootNode "top" "a.txt" dirMode defaultFilePerms
      dirMode hello 0 ⟨0⟩ wTop wFile wHello wOrphan wReborn (by decide) (by decide) (by decide)
      (by decide) (by decide) (by decide) (by decide) (by decide) (by decide) (by decide)
      (by decide) (by decide) (by decide) rfl rfl rfl rfl rfl).2.2.2.2.2.2.2.2.1,
   by decide⟩

/-- C19 (counterexample): with `d = c = hashName` under the root, the paths of the new
directory and of the old file have the same hash, so after the second `Mkdir` the listing
of the new directory has the entry, but `Lookup` of it under the new directory answers
ENOENT, not the old file. And when the root already has a child "c", the listing of the
root between the `Remove` of "d" and the second `Mkdir` has an entry named "c". -/
theorem C19_orphan_lookup_counterexample :
    MDBFS.newUniqueID ("/" ++ hashName ++ "/" ++ hashName) = MDBFS.newUniqueID ("/" ++ hashName) ∧
    (wHashReborn.heap[3]?).map Node.Path = some ("/" ++ hashName) ∧
    (wHashReborn.heap[2]?).map Node.Data = some hello ∧
    Txn.First wHashReborn ("/" ++ hashName ++ "/" ++ hashName) = some 2 ∧
    (Node.ReadDirAll wHashReborn 3).map (fun ds => ds.map Dirent.Name) = .ok [hashName] ∧
    Node.Lookup wHashReborn 3 hashName = .error .ENOENT ∧
    (Node.ReadDirAll wChildFirst 0).map (fun ds => ds.map Dirent.Name) = .ok ["c"] := by
  decide

/-- Away from the failing input of C20: in a well-formed store, for a directory node and a
name, both without a percent sign, such that the hash of the new path is not the
directory's `ID`: when `f` is
the node `Create` returned and `Remove` of the name has deleted its record, a `Write` of a
non-empty payload through `f` with an offset that is not negative succeeds and inserts the
record of `f` again; afterwards `Lookup` of the name returns `f`, whose `Data` is the
payload and whose `Size` is its length, and the listing of the directory has the name. -/
theorem stale_write (w w1 w2 w3 : World) (n : Nat) (nd : Node) (name : String)
    (mode : Nat) (dir : Bool) (B : List UInt8) (off : Int) (resp : WriteResponse)
    (hwf : w.WF) (hn : w.heap[n]? = some nd) (hd : nd.isDir = true)
    (hp : '%' ∉ nd.Path.data) (hq : '%' ∉ name.data)
    (h1 : FileMode.IsDir mode = false) (h2 : FileMode.IsRegular mode = true)
    (hB : B ≠ []) (hlen : B.length < 2 ^ 64) (ho : 0 ≤ off)
    (hid : MDBFS.newUniqueID (nd.Path ++ "/" ++ name) ≠ nd.ID)
    (e1 : w1 = (Node.Create w n ⟨name, mode⟩).2)
    (e2 : w2 = (Node.Remove w1 n ⟨name, dir⟩).2)
    (e3 : w3 = (Node.Write w2 w.heap.length ⟨B, off⟩ resp).2) :
    (Node.Create w n ⟨name, mode⟩).1 = .ok (w.heap.length, w.heap.length) ∧
    (Node.Remove w1 n ⟨name, dir⟩).1 = .ok () ∧
    Txn.First w2 (nd.Path ++ "/" ++ name) = none ∧
    (Node.Write w2 w.heap.length ⟨B, off⟩ resp).1 = .ok ⟨B.length⟩ ∧
    Txn.First w3 (nd.Path ++ "/" ++ name) = some w.heap.length ∧
    Node.Lookup w3 n name = .ok w.heap.length ∧
    w3.heap[w.heap.length]? = some (Node.mk (nd.Path ++ "/" ++ name) name
      (MDBFS.newUniqueID (nd.Path ++ "/" ++ name)) defaultFilePerms "" B.length B) ∧
    ∃ ds, Node.ReadDirAll w3 n = .ok ds ∧
      (Dirent.mk (MDBFS.newUniqueID (nd.Path ++ "/" ++ name)) DT_Unknown name) ∈ ds := by
  have hs := path_plain nd.Path name hp hq
  have hlen2 : B.length % 2 ^ 64 = B.length := Nat.mod_eq_of_lt hlen
  have hc := create_eq ⟨name, mode⟩ hn hd h1 h2
  simp only [hs] at hc
  have hfn : MDBFS.newFileNode nd.Path name = Node.mk (nd.Path ++ "/" ++ name) name
      (MDBFS.newUniqueID (nd.Path ++ "/" ++ name)) defaultFilePerms "" 0 [] := by
    simp [MDBFS.newFileNode, hs]
  rw [hfn] at hc
  have hw1wf : w1.WF := by rw [e1]; exact WF_Create w n _ hwf
  have hw1n : w1.heap[n]? = some nd := by
    rw [e1, hc]; exact heap_append _ hn
  have hw1f : w1.heap[w.heap.length]? = some (Node.mk (nd.Path ++ "/" ++ name) name
      (MDBFS.newUniqueID (nd.Path ++ "/" ++ name)) defaultFilePerms "" 0 []) := by
    rw [e1, hc]; simp
  obtain ⟨r1, r2, r3, _⟩ := remove_frame w1 n nd ⟨name, dir⟩ hw1n hd
  simp only [hs] at r3
  have hw2wf : w2.WF := by rw [e2]; exact WF_Remove w1 n _ hw1wf
  have hw2f : w2.heap[w.heap.length]? = some (Node.mk (nd.Path ++ "/" ++ name) name
      (MDBFS.newUniqueID (nd.Path ++ "/" ++ name)) defaultFilePerms "" 0 []) := by
    rw [e2, r2]; exact hw1f
  have hw2n : w2.heap[n]? = some nd := by
    rw [e2, r2]; exact hw1n
  have hkey : (nd.Path ++ "/" ++ name) ≠ "" := by
    rw [← hs]; exact path_ne_empty _ _
  have hregf : (Node.mk (nd.Path ++ "/" ++ name) name
      (MDBFS.newUniqueID (nd.Path ++ "/" ++ name)) defaultFilePerms "" 0 []).isRegular = true := by
    show FileMode.IsRegular defaultFilePerms = true
    decide
  have hwr := write_eq (w := w2) ⟨B, off⟩ resp hw2f hregf hkey hB ho
  simp only [hlen2] at hwr
  have hw3wf : w3.WF := by rw [e3]; exact WF_Write w2 _ _ _ hw2wf
  have hnf : n ≠ w.heap.length := Nat.ne_of_lt (heap_lt hn)
  have hw3n : w3.heap[n]? = some nd := by
    rw [e3, hwr]
    simp only
    rw [List.getElem?_set_ne (Ne.symm hnf)]
    exact hw2n
  have hw3f : w3.heap[w.heap.length]? = some (Node.mk (nd.Path ++ "/" ++ name) name
      (MDBFS.newUniqueID (nd.Path ++ "/" ++ name)) defaultFilePerms "" B.length B) := by
    rw [e3, hwr]
    simp [List.getElem?_set, heap_lt hw2f]
  have hw3first : Txn.First w3 (nd.Path ++ "/" ++ name) = some w.heap.length := by
    rw [e3, hwr]
    simp [Txn.First]
  refine ⟨by rw [hc], r1, by rw [e2]; exact r3, by rw [hwr], hw3first, ?_, hw3f, ?_⟩
  · exact lookup_eq name hw3n hd (by rw [hs]; exact hw3first) hw3f hid
  · exact listing_complete w3 n w.heap.length nd _ hw3wf hw3n hd hp
      (first_eq_some_mem hw3first) hw3f rfl

/-- An instance of `stale_write`: `Create(root, "a.txt")`, `Remove(root, "a.txt")` and a
`Write` of "hello" through the node `Create` returned. -/
theorem stale_write_hello :
    wRoot.WF ∧ wRoot.heap[0]? = some rootNode ∧
    MDBFS.newUniqueID ("" ++ "/" ++ "a.txt") ≠ rootNode.ID ∧
    Txn.First wRemoved ("" ++ "/" ++ "a.txt") = none ∧
    Node.Lookup wStale 0 "a.txt" = .ok 1 ∧
    (wStale.heap[1]?).map Node.Data = some hello :=
  ⟨by decide, by decide, by decide, by decide,
   (stale_write wRoot (Node.Create wRoot 0 ⟨"a.txt", defaultFilePerms⟩).2 wRemoved wStale
      0 rootNode "a.txt" defaultFilePerms false hello 0 ⟨0⟩ (by decide) (by decide) (by decide)
      (by decide) (by decide) (by decide) (by decide) (by decide) (by decide) (by decide)
      (by decide) rfl rfl rfl).2.2.2.2.2.1,
   by decide⟩

/-- C20 (failing input): the path `/vKRBdIN0AZea` of the file has the hash of the root's
empty path. `Create(root, "vKRBdIN0AZea")` returns the node `f` (pointer 1), `Remove` of
the name deletes its record, and the `Write` of "hello" through `f` at offset 0 succeeds
and inserts the record again: the store has it, `f` has the `Data` "hello" and the `Size`
5, and the listing of the root shows the name; yet `Lookup` of the name under the root
meets the check `raw.ID == n.ID` of `lookup` and answers ENOENT. -/
theorem C20_stale_same_hash_lookup_enoent :
    MDBFS.newUniqueID ("" ++ "/" ++ hashName) = rootNode.ID ∧
    wRoot.heap[0]? = some rootNode ∧ rootNode.isDir = true ∧
    (Node.Create wRoot 0 ⟨hashName, defaultFilePerms⟩).1 = .ok (1, 1) ∧
    (Node.Remove wHashFile 0 ⟨hashName, false⟩).1 = .ok () ∧
    Txn.First (Node.Remove wHashFile 0 ⟨hashName, false⟩).2 ("" ++ "/" ++ hashName) = none ∧
    hello ≠ [] ∧
    (Node.Write (Node.Remove wHashFile 0 ⟨hashName, false⟩).2 1 ⟨hello, 0⟩ ⟨0⟩).1 = .ok ⟨5⟩ ∧
    wHashStale = (Node.Write (Node.Remove wHashFile 0 ⟨hashName, false⟩).2 1 ⟨hello, 0⟩ ⟨0⟩).2 ∧
    Txn.First wHashStale ("" ++ "/" ++ hashName) = some 1 ∧
    wHashStale.heap[1]? = some (Node.mk ("" ++ "/" ++ hashName) hashName
      (MDBFS.newUniqueID ("" ++ "/" ++ hashName)) defaultFilePerms "" 5 hello) ∧
    (Node.ReadDirAll wHashStale 0).map (fun ds => ds.map Dirent.Name) = .ok [hashName] ∧
    Node.Lookup wHashStale 0 hashName = .error .ENOENT := by
  decide

end MemDBFS
